import Mathlib

/-! ## Rotating log file of `cxr29/log` (`logfile.go`)

A shallow embedding of `Logfile` (the rotating sink) and of the operating-system
calls it makes, followed by the properties proved about it.

Conventions of the embedding.

* Every method of `Logfile` runs with `lf.mu` held, or is a goroutine body; each
  is embedded as one atomic state transformer.
* The directory is a list of entries keyed by the path as spelled; Go strings
  are byte strings and the names here carry one `Char` per byte.
* Every outcome that the program does not control (the clock reading, a failing
  system call, a short write, the list that `filepath.Glob` returns) is an
  explicit argument of the operation.
* `lf.size` is an `int64` that mirrors a file length; file lengths are `int64`
  in the operating system as well, so the addition in `Write` is embedded
  unbounded.  The arithmetic of `cycle`, which multiplies a caller-supplied
  number, is embedded with 64-bit wrap-around.
-/

namespace Log

/-! ## Operating-system layer -/

/-- One byte of a `[]byte`. -/
abbrev Byte := Fin 256

/-- Error values that reach the rotating sink. -/
inductive Error where
  /-- Go `os.ErrInvalid`. -/
  | ErrInvalid
  /-- Use of a descriptor that has been closed. -/
  | ErrClosed
  /-- The path does not exist (`os.IsNotExist` holds). -/
  | ErrNotExist
  /-- The path already exists. -/
  | ErrExist
  /-- Too many levels of symbolic links. -/
  | ErrLoop
  /-- Any other error reported by the operating system. -/
  | sys (code : Nat)
  deriving DecidableEq, Repr

/-- A directory entry: a regular file with its bytes, or a symbolic link. -/
inductive Node where
  | regular (data : List Byte)
  | symlink (target : String)
  deriving DecidableEq, Repr

/-- The directory: entries keyed by path. -/
abbrev Disk := List (String × Node)

/-- The entry bound to `path`, if any. -/
def lookupNode : Disk → String → Option Node
  | [], _ => none
  | (k, v) :: rest, path => if k = path then some v else lookupNode rest path

/-- The directory without `path`. -/
def eraseNode (d : Disk) (path : String) : Disk :=
  d.filter (fun e => decide (e.1 ≠ path))

/-- The directory with `path` bound to `v`. -/
def setNode (d : Disk) (path : String) (v : Node) : Disk :=
  (path, v) :: eraseNode d path

/-- The paths bound in the directory. -/
def diskNames (d : Disk) : List String :=
  d.map Prod.fst

/-- Length of the regular file at `path` (0 when there is none). -/
def fileLen (d : Disk) (path : String) : Nat :=
  match lookupNode d path with
  | some (.regular data) => data.length
  | _ => 0

/-- Go `filepath.Split` (Unix): the part up to and including the last
separator, and the part after it. -/
def splitPath (path : String) : String × String :=
  let r := path.data.reverse
  (String.mk (r.dropWhile (fun c => decide (c ≠ '/'))).reverse,
   String.mk (r.takeWhile (fun c => decide (c ≠ '/'))).reverse)

/-- Where a symbolic link stored at `link` with text `target` points: an
absolute target as is, a relative one from the directory of the link. -/
def linkDest (link target : String) : String :=
  match target.data with
  | '/' :: _ => target
  | _ => (splitPath link).1 ++ target

/-- Path resolution of the last component: follow symbolic links, at most
`fuel - 1` of them. -/
def resolve : Nat → Disk → String → Option String
  | 0, _, _ => none
  | fuel + 1, d, path =>
    match lookupNode d path with
    | some (.symlink t) => resolve fuel d (linkDest path t)
    | _ => some path

/-- Number of symbolic links the kernel follows before giving up. -/
def maxLinks : Nat := 40

/-- Go `*os.File`: the name it was opened under (`Name()`), the entry the
descriptor is attached to, and whether `Close` has been called. -/
structure File where
  name : String
  path : String
  closed : Bool
  deriving DecidableEq, Repr

/-- Go `openFile(name)` = `os.OpenFile(name, O_WRONLY|O_APPEND|O_CREATE, 0644)`.
`fault` is the error of a failing call; a successful call creates the file
empty when it is absent. -/
def openFile (d : Disk) (name : String) (fault : Option Error) :
    Disk × Option File × Option Error :=
  match fault with
  | some e => (d, none, some e)
  | none =>
    match resolve (maxLinks + 1) d name with
    | none => (d, none, some .ErrLoop)
    | some path =>
      match lookupNode d path with
      | none => (setNode d path (.regular []), some ⟨name, path, false⟩, none)
      | some _ => (d, some ⟨name, path, false⟩, none)

/-- Go `(*os.File).Close`: the descriptor is released whatever the result; a
second call fails. -/
def File.Close (f : File) (fault : Option Error) : File × Option Error :=
  if f.closed then (f, some .ErrClosed) else ({ f with closed := true }, fault)

/-- Go `(*os.File).Stat` followed by `Size()`. -/
def File.Stat (f : File) (d : Disk) (fault : Option Error) : Int × Option Error :=
  if f.closed then (0, some .ErrClosed)
  else
    match fault with
    | some e => (0, some e)
    | none => ((fileLen d f.path : Nat), none)

/-- Bytes accepted by one `write` call: all of `p`, or, when the call fails
after `k` bytes, the first `k`. -/
def written (p : List Byte) (fault : Option (Nat × Error)) : Nat :=
  match fault with
  | none => p.length
  | some (k, _) => min k p.length

/-- What `appendData` does to one entry. -/
def appendNode (bytes : List Byte) : Node → Node
  | .regular data => .regular (data ++ bytes)
  | .symlink t => .symlink t

/-- The directory after `bytes` were appended to the regular file at `path`
(a descriptor whose entry is gone leaves the directory as it is). -/
def appendData (d : Disk) (path : String) (bytes : List Byte) : Disk :=
  d.map (fun e => if e.1 = path then (e.1, appendNode bytes e.2) else e)

/-- Go `(*os.File).Write` on a descriptor opened with `O_APPEND`. -/
def File.Write (f : File) (d : Disk) (p : List Byte) (fault : Option (Nat × Error)) :
    Disk × Nat × Option Error :=
  if f.closed then (d, 0, some .ErrClosed)
  else (appendData d f.path (p.take (written p fault)), written p fault,
        fault.map Prod.snd)

/-- Go `os.Remove(path)`. -/
def osRemove (d : Disk) (path : String) (fault : Option Error) : Disk × Option Error :=
  match lookupNode d path with
  | none => (d, some .ErrNotExist)
  | some _ =>
    match fault with
    | some e => (d, some e)
    | none => (eraseNode d path, none)

/-- Go `os.Symlink(target, path)`. -/
def osSymlink (d : Disk) (target path : String) (fault : Option Error) :
    Disk × Option Error :=
  match lookupNode d path with
  | some _ => (d, some .ErrExist)
  | none =>
    match fault with
    | some e => (d, some e)
    | none => (setNode d path (.symlink target), none)

/-- Byte-wise lexicographic order of Go strings (`a <= b`). -/
def bytesLe : List Char → List Char → Bool
  | [], _ => true
  | _ :: _, [] => false
  | a :: as, b :: bs =>
    if a.toNat < b.toNat then true
    else if b.toNat < a.toNat then false
    else bytesLe as bs

/-- Go `a <= b` on strings. -/
def strLe (a b : String) : Prop := bytesLe a.data b.data = true

instance strLe.decidable : DecidableRel strLe :=
  fun a b => inferInstanceAs (Decidable (bytesLe a.data b.data = true))

/-- Go `sort.Strings`. -/
def sortStrings (names : List String) : List String :=
  names.insertionSort strLe

/-- Whether `name` extends `base` by text that holds no separator: an entry
of the directory of `base` whose name starts with the name of `base`. -/
def matchesBase (base name : String) : Bool :=
  base.data.isPrefixOf name.data && decide ('/' ∉ name.data.drop base.data.length)

/-- Go `s[k:]`; `none` is the run-time panic "slice bounds out of range". -/
def sliceFrom (s : String) (k : Nat) : Option String :=
  if k ≤ s.length then some (String.mk (s.data.drop k)) else none

/-- Two's-complement wrap-around of an `int64` result. -/
def wrap64 (x : Int) : Int :=
  (x + 2 ^ 63) % 2 ^ 64 - 2 ^ 63

/-! ## The rotating sink -/

/-- What the program is seen to do besides its results. -/
inductive Event where
  /-- `lf.rotate()` was entered. -/
  | rotate
  /-- `go lf.purge()` was launched. -/
  | purge
  /-- `go lf.cycle()` was launched. -/
  | cycle
  /-- A non-nil error was handed to the warning logger. -/
  | warning (e : Error)
  deriving DecidableEq, Repr

/-- Go `ErrWarning(err)`. -/
def ErrWarning (err : Option Error) : List Event :=
  match err with
  | some e => [.warning e]
  | none => []

/-- Go `existWarning(err)`: `err != nil && !os.IsNotExist(err)`. -/
def existWarning (err : Option Error) : List Event :=
  match err with
  | some .ErrNotExist => []
  | some e => [.warning e]
  | none => []

/-- Go `type Logfile struct` (without the mutex). -/
structure Logfile where
  file : Option File
  layout : String
  baseName : String
  size : Int
  seconds : Int
  maxSize : Int
  maxCount : Int
  deriving DecidableEq, Repr

/-- A sink together with the directory it writes to. -/
structure Sys where
  lf : Logfile
  disk : Disk
  deriving DecidableEq, Repr

/-- What the environment decides during one `rotate`: `stamp` is
`time.Now().Format(lf.layout)`, the rest are the errors of failing calls. -/
structure RotateEnv where
  stamp : String
  openFault : Option Error
  closeFault : Option Error
  statFault : Option Error
  removeFault : Option Error
  symlinkFault : Option Error
  deriving DecidableEq, Repr

/-- Result of `rotate`. -/
structure RotateOut where
  sys : Sys
  err : Option Error
  events : List Event
  deriving DecidableEq, Repr

/-- Result of `Write`. -/
structure WriteOut where
  sys : Sys
  n : Nat
  err : Option Error
  events : List Event
  deriving DecidableEq, Repr

/-- Go `(*Logfile).replace(newFile)`. -/
def Logfile.replace (lf : Logfile) (d : Disk) (newFile : Option File)
    (closeFault statFault : Option Error) : Logfile × Option Error :=
  let closed : Logfile × Option Error :=
    match lf.file with
    | some f => ({ lf with file := some (f.Close closeFault).1 }, (f.Close closeFault).2)
    | none => (lf, none)
  match closed.2 with
  | some e => (closed.1, some e)
  | none =>
    match newFile with
    | some nf =>
      match nf.Stat d statFault with
      | (_, some e) => (closed.1, some e)
      | (sz, none) => ({ closed.1 with size := sz, file := some nf }, none)
    | none => ({ closed.1 with size := 0, file := none }, none)

/-- Go `lf.file != nil && lf.file.Name() == name`. -/
def sameName (file : Option File) (name : String) : Bool :=
  match file with
  | some f => decide (f.name = name)
  | none => false

/-- Go `(*Logfile).rotate`. -/
def Logfile.rotate (s : Sys) (env : RotateEnv) : RotateOut :=
  let name := s.lf.baseName ++ env.stamp
  if sameName s.lf.file name then ⟨s, none, [.rotate]⟩
  else
    match openFile s.disk name env.openFault with
    | (d1, _, some e) => ⟨⟨s.lf, d1⟩, some e, [.rotate]⟩
    | (d1, file, none) =>
      match s.lf.replace d1 file env.closeFault env.statFault with
      | (lf1, some e) => ⟨⟨lf1, d1⟩, some e, [.rotate]⟩
      | (lf1, none) =>
        let rm := osRemove d1 s.lf.baseName env.removeFault
        let f := (splitPath name).2
        let ln := osSymlink rm.1 f s.lf.baseName env.symlinkFault
        ⟨⟨lf1, ln.1⟩, none, [.rotate] ++ existWarning rm.2 ++ ErrWarning ln.2 ++ [.purge]⟩

/-- Go `(*Logfile).Close`. -/
def Logfile.Close (s : Sys) (closeFault : Option Error) : Sys × Option Error :=
  let r := s.lf.replace s.disk none closeFault none
  (⟨r.1, s.disk⟩, r.2)

/-- Go `(*Logfile).Write`. -/
def Logfile.Write (s : Sys) (p : List Byte) (fault : Option (Nat × Error))
    (env : RotateEnv) : WriteOut :=
  match s.lf.file with
  | none => ⟨s, 0, some .ErrInvalid, []⟩
  | some f =>
    match f.Write s.disk p fault with
    | (d1, n, some e) => ⟨⟨{ s.lf with size := s.lf.size + n }, d1⟩, n, some e, []⟩
    | (d1, n, none) =>
      let lf1 : Logfile := { s.lf with size := s.lf.size + n }
      if 0 < lf1.maxSize ∧ lf1.maxSize < lf1.size then
        let r := Logfile.rotate ⟨lf1, d1⟩ env
        ⟨r.sys, n, r.err, r.events⟩
      else ⟨⟨lf1, d1⟩, n, none, []⟩

/-- What `open` hands back: a plain append-only file, or the rotating sink. -/
inductive Sink where
  | plain (f : File)
  | rotating (lf : Logfile)
  deriving DecidableEq, Repr

/-- Result of `open`. -/
structure OpenOut where
  disk : Disk
  sink : Option Sink
  err : Option Error
  events : List Event
  deriving DecidableEq, Repr

/-- Go `open(layout, baseName, seconds, maxSize, maxCount)` (`open` is a
keyword here). -/
def openWith (d : Disk) (layout baseName : String) (seconds maxSize maxCount : Int)
    (env : RotateEnv) : OpenOut :=
  if seconds ≤ 0 ∧ maxSize ≤ 0 ∧ maxCount ≤ 0 then
    match openFile d baseName env.openFault with
    | (d1, some f, none) => ⟨d1, some (.plain f), none, []⟩
    | (d1, _, err) => ⟨d1, none, err, []⟩
  else
    let lf : Logfile := ⟨none, layout, baseName, 0, seconds, maxSize, maxCount⟩
    let r := Logfile.rotate ⟨lf, d⟩ env
    match r.err with
    | some e =>
      let c := Logfile.Close r.sys none
      ⟨c.1.disk, none, some e, r.events ++ ErrWarning c.2⟩
    | none => ⟨r.sys.disk, some (.rotating r.sys.lf), none, r.events ++ [.cycle]⟩

/-- Go `Open(baseName, seconds, maxSize, maxCount)`. -/
def Open (d : Disk) (baseName : String) (seconds maxSize maxCount : Int)
    (env : RotateEnv) : OpenOut :=
  openWith d ".20060102.150405" baseName seconds maxSize maxCount env

/-- Go `OpenDaily(baseName)`. -/
def OpenDaily (d : Disk) (baseName : String) (env : RotateEnv) : OpenOut :=
  openWith d ".20060102" baseName 86400 0 0 env

/-- The wake instant of `cycle`: `ns := lf.seconds * 1e9` and
`next := (now/ns)*ns + ns` in `int64`; `none` is the run-time panic of an
integer division by zero. -/
def cycleNext (seconds now : Int) : Option Int :=
  let ns := wrap64 (seconds * 1000000000)
  if ns = 0 then none
  else some (wrap64 (wrap64 (wrap64 (Int.tdiv now ns) * ns) + ns))

/-- The sleep of `cycle`: `time.Duration(next - now)`. -/
def cycleSleep (seconds now : Int) : Option Int :=
  (cycleNext seconds now).map (fun next => wrap64 (next - now))

/-- One wake of `cycle` with the lock held: `none` when the sink is closed and
the goroutine returns, otherwise the rotation with its error logged. -/
def Logfile.cycleWake (s : Sys) (env : RotateEnv) : Option (Sys × List Event) :=
  match s.lf.file with
  | none => none
  | some _ =>
    let r := Logfile.rotate s env
    some (r.sys, r.events ++ ErrWarning r.err)

/-- The first loop of `purge`: drop from `names[0:n]` every name whose text
after the base name does not parse.  `k` is `len(lf.baseName)`, `parses` tells
whether `time.Parse(lf.layout, ·)` returns no error; `none` is a run-time
panic.  The first argument bounds the number of iterations: each one advances
`i` or lowers `n`, so `len(names)` is enough. -/
def purgeScan (parses : String → Bool) (k : Nat) :
    Nat → List String → Nat → Nat → Option (List String × Nat)
  | 0, names, i, n => if i < n then none else some (names, n)
  | fuel + 1, names, i, n =>
    if i < n then
      match names.get? i with
      | none => none
      | some x =>
        match sliceFrom x k with
        | none => none
        | some suffix =>
          if parses suffix then purgeScan parses k fuel names (i + 1) n
          else purgeScan parses k fuel (names.take i ++ names.drop (i + 1)) i (n - 1)
    else some (names, n)

/-- The second loop of `purge`: remove each name in turn unless it is the name
of the active file.  `rm x` is the error of a failing `os.Remove(x)`. -/
def purgeRemove (active : Option File) (rm : String → Option Error) :
    Disk → List String → Disk × List Event
  | d, [] => (d, [])
  | d, x :: xs =>
    if sameName active x then purgeRemove active rm d xs
    else
      let r := osRemove d x (rm x)
      let rest := purgeRemove active rm r.1 xs
      (rest.1, existWarning r.2 ++ rest.2)

/-- Go `(*Logfile).purge`, where `names` is what `filepath.Glob` returned (its
error is ignored by the program); `none` is a run-time panic.  `int` is taken
64 bits wide, so `int(lf.maxCount)` is `lf.maxCount`. -/
def Logfile.purge (s : Sys) (parses : String → Bool) (rm : String → Option Error)
    (names : List String) : Option (Disk × List Event) :=
  if s.lf.maxCount ≤ 0 then some (s.disk, [])
  else
    match purgeScan parses s.lf.baseName.length names.length names 0 names.length with
    | none => none
    | some (kept, n) =>
      let excess : Int := (n : Int) - s.lf.maxCount
      if 0 < excess then
        some (purgeRemove s.lf.file rm s.disk ((sortStrings kept).take excess.toNat))
      else some (s.disk, [])

/-- Whether the text of `name` after its first `k` bytes parses under the
layout. -/
def suffixParses (parses : String → Bool) (k : Nat) (name : String) : Bool :=
  parses (String.mk (name.data.drop k))

/-- The files on disk whose suffix after the base name parses: the entries
that extend the base name of the sink by text that holds no separator and
parses.  They are the log files that retention counts. -/
def retained (parses : String → Bool) (s : Sys) : List String :=
  (diskNames s.disk).filter
    (fun x => matchesBase s.lf.baseName x && suffixParses parses s.lf.baseName.length x)

/-- Where the current-pointer at `base` leads, when it is a symbolic link. -/
def pointerDest (d : Disk) (base : String) : Option String :=
  match lookupNode d base with
  | some (.symlink t) => some (linkDest base t)
  | _ => none

/-! ## Runs -/

/-- One operation on the sink, with what the environment decides during it;
for a purge pass, the errors of the removals and what `filepath.Glob`
returned. -/
inductive Op where
  | write (p : List Byte) (fault : Option (Nat × Error)) (env : RotateEnv)
  | rotate (env : RotateEnv)
  | close (fault : Option Error)
  | purge (rm : String → Option Error) (names : List String)

/-- The clock reading used by an operation, if it takes one. -/
def Op.stamp : Op → Option String
  | .write _ _ env => some env.stamp
  | .rotate env => some env.stamp
  | .close _ => none
  | .purge _ _ => none

/-- The effect of one operation; `none` when the process panics. -/
def step (parses : String → Bool) (s : Sys) : Op → Option Sys
  | .write p fault env => some (Logfile.Write s p fault env).sys
  | .rotate env => some (Logfile.rotate s env).sys
  | .close fault => some (Logfile.Close s fault).1
  | .purge rm names => (Logfile.purge s parses rm names).map (fun r => ⟨s.lf, r.1⟩)

/-- The effect of a sequence of operations. -/
def run (parses : String → Bool) : Sys → List Op → Option Sys
  | s, [] => some s
  | s, op :: ops => (step parses s op).bind (fun s1 => run parses s1 ops)

/-! ## Invariants -/

/-- The size field mirrors the active file: with no active file it is 0,
otherwise the entry of the active file is a regular file on disk and the size
is its length. -/
def sizeMirrors (s : Sys) : Prop :=
  match s.lf.file with
  | none => s.lf.size = 0
  | some f => ∃ data, lookupNode s.disk f.path = some (.regular data) ∧ s.lf.size = data.length

/-- The directory holds no symbolic link except, possibly, at `base`. -/
def pointerOnly (d : Disk) (base : String) : Prop :=
  ∀ k t, lookupNode d k = some (.symlink t) → k = base

/-- The invariant of the sink and its directory: the pointer is the only
symbolic link, and the active file, if any, was opened under its own name,
which is not the base name, and the size mirrors it. -/
def wellKept (s : Sys) : Prop :=
  pointerOnly s.disk s.lf.baseName
  ∧ match s.lf.file with
    | none => s.lf.size = 0
    | some f =>
      f.path = f.name ∧ f.name ≠ s.lf.baseName
      ∧ ∃ data, lookupNode s.disk f.path = some (.regular data) ∧ s.lf.size = data.length

/-- Every clock text of the operations is non-empty (the layouts of `Open` and
`OpenDaily` start with a literal dot). -/
def stampsOk (ops : List Op) : Prop :=
  ∀ op ∈ ops, ∀ st, op.stamp = some st → st ≠ ""

/-- An environment in which every system call succeeds, the clock reading
`stamp`. -/
def calm (stamp : String) : RotateEnv :=
  ⟨stamp, none, none, none, none, none⟩

/-- The state after one operation, the state itself when the process panics. -/
def stepOr (parses : String → Bool) (s : Sys) (op : Op) : Sys :=
  (step parses s op).getD s

/-- What one operation is seen to do. -/
def opEvents (s : Sys) : Op → List Event
  | .write p fault env => (Logfile.Write s p fault env).events
  | .rotate env => (Logfile.rotate s env).events
  | .close _ => []
  | .purge _ _ => []

/-- The number of rotations of a run that switched files, each of which
launched a purge pass. -/
def rotationsIn (parses : String → Bool) : Sys → List Op → Nat
  | _, [] => 0
  | s, op :: ops => (opEvents s op).count .purge + rotationsIn parses (stepOr parses s op) ops

/-- The name of the active file, `cur` when the sink has none. -/
def activeName (cur : String) (s : Sys) : String :=
  match s.lf.file with
  | some f => f.name
  | none => cur

/-- What `filepath.Glob(base + "*")` returned is the listing of the directory
read literally: each entry that extends `base` by text without a separator,
once, spelled as `base` is. -/
def globReports (d : Disk) (base : String) (names : List String) : Prop :=
  names.Nodup ∧ ∀ x, x ∈ names ↔ (x ∈ diskNames d ∧ matchesBase base x = true)

/-- One rotation on a sink whose active file is named `cur`, the clock not
stepping back: the candidate name is `cur`, or opening the candidate is
refused, or the candidate is strictly above `cur`, its clock text parses and
holds no separator, and open, close and stat succeed. -/
def rotationOk (parses : String → Bool) (base cur : String) (env : RotateEnv) : Prop :=
  base ++ env.stamp = cur
  ∨ env.openFault ≠ none
  ∨ (env.openFault = none ∧ env.closeFault = none ∧ env.statFault = none
      ∧ parses env.stamp = true ∧ '/' ∉ env.stamp.data
      ∧ strLe cur (base ++ env.stamp) ∧ cur ≠ base ++ env.stamp)

/-- The condition on one operation of a run with a forward clock: a `Write`
that enters `rotate` and a scheduled rotation (which the scheduler requests
only on a sink that is not closed) satisfy `rotationOk`, a `Close` succeeds,
and in a purge pass every removal succeeds and `Glob` returned the listing of
the directory. -/
def opOk (parses : String → Bool) (base cur : String) (s : Sys) : Op → Prop
  | .write p fault env =>
    Event.rotate ∈ (Logfile.Write s p fault env).events → rotationOk parses base cur env
  | .rotate env => s.lf.file ≠ none ∧ rotationOk parses base cur env
  | .close fault => fault = none
  | .purge rm names => (∀ x, rm x = none) ∧ globReports s.disk base names

/-- A run with a forward clock, from a sink whose latest active file is named
`cur`: every operation satisfies `opOk` in the state it is applied to. -/
def forward (parses : String → Bool) (base : String) : String → Sys → List Op → Prop
  | _, _, [] => True
  | cur, s, op :: ops =>
    opOk parses base cur s op
    ∧ forward parses base (activeName cur (stepOr parses s op)) (stepOr parses s op) ops

/-- The state of a sink keeping `k` files after `j` file switches with a
forward clock: the names in the directory are distinct, the sink is closed or
active on `cur`, `cur` is a log file on disk, no log file has a later name,
and at least `min j k` log files are on disk. -/
def orderly (parses : String → Bool) (base : String) (k : Nat) (cur : String) (j : Nat)
    (s : Sys) : Prop :=
  (diskNames s.disk).Nodup
  ∧ (s.lf.file = none ∨ s.lf.file = some ⟨cur, cur, false⟩)
  ∧ cur ∈ retained parses s
  ∧ (∀ x ∈ retained parses s, strLe x cur)
  ∧ min j k ≤ (retained parses s).length
  ∧ s.lf.baseName = base
  ∧ s.lf.maxCount = k

/-! ## Sample environments and sinks -/

/-- The sink that `Open("app.log", 0, 1024, 0)` returns in an empty directory
at 2016-01-01 00:00:00. -/
def appLog : Sys :=
  ⟨⟨some ⟨"app.log.20160101.000000", "app.log.20160101.000000", false⟩,
      ".20060102.150405", "app.log", 0, 0, 1024, 0⟩,
    [("app.log", .symlink "app.log.20160101.000000"),
     ("app.log.20160101.000000", .regular [])]⟩

/-- The sink `appLog` after three bytes were written to it. -/
def appLogWritten : Sys :=
  (Logfile.Write appLog [1, 2, 3] none (calm ".20160101.000000")).sys

/-- The sink `appLog` in a directory that already holds a two-byte file under
the name of the next second. -/
def appLogStale : Sys :=
  ⟨appLog.lf, appLog.disk ++ [("app.log.20160101.000001", .regular [9, 9])]⟩

/-- The sink that `Open("app.log", 0, 4, 0)` returns in an empty directory at
2016-01-01 00:00:00. -/
def smallLog : Sys :=
  ⟨{ appLog.lf with maxSize := 4 }, appLog.disk⟩

/-- A stand-in for `time.Parse(".20060102.150405", ·)` on the texts used in
the samples: a dot, eight digits, a dot and six digits. -/
def stampLike (text : String) : Bool :=
  match text.data with
  | ['.', y1, y2, y3, y4, m1, m2, d1, d2, '.', h1, h2, n1, n2, s1, s2] =>
    [y1, y2, y3, y4, m1, m2, d1, d2, h1, h2, n1, n2, s1, s2].all Char.isDigit
  | _ => false

/-- A sink keeping two files, active on the file of the third second, in a
directory that holds the files of three seconds, the pointer and a file that
is not a log file. -/
def threeLogs : Sys :=
  ⟨⟨some ⟨"app.log.20160101.000002", "app.log.20160101.000002", false⟩,
      ".20060102.150405", "app.log", 0, 1, 0, 2⟩,
    [("app.log", .symlink "app.log.20160101.000002"),
     ("app.log.20160101.000000", .regular [1]),
     ("app.log.20160101.000001", .regular [2]),
     ("app.log.20160101.000002", .regular []),
     ("app.log.txt", .regular [7])]⟩

/-- The sink that `Open("app.log", 3600, 0, 1)` returns in an empty directory
at 02:59:59 local time on 2016-10-30, the night daylight saving time ends. -/
def hourLog : Sys :=
  ⟨⟨some ⟨"app.log.20161030.025959", "app.log.20161030.025959", false⟩,
      ".20060102.150405", "app.log", 0, 3600, 0, 1⟩,
    [("app.log", .symlink "app.log.20161030.025959"),
     ("app.log.20161030.025959", .regular [])]⟩

/-- The sink `hourLog` after the rotation of the next hour mark, which local
time shows as 02:00:00, and after the purge pass that this rotation launches. -/
def hourLogLater : Sys :=
  ⟨⟨some ⟨"app.log.20161030.020000", "app.log.20161030.020000", false⟩,
      ".20060102.150405", "app.log", 0, 3600, 0, 1⟩,
    [("app.log", .symlink "app.log.20161030.020000"),
     ("app.log.20161030.020000", .regular []),
     ("app.log.20161030.025959", .regular [])]⟩

/-- The sink `appLog` in a directory where the name of the next second has
been planted as a symbolic link to the active file. -/
def appLogLinked : Sys :=
  ⟨appLog.lf, appLog.disk
    ++ [("app.log.20160101.000001", .symlink "app.log.20160101.000000")]⟩

/-- A directory in which the name of a coming second has been planted as a
symbolic link to the name of the present second. -/
def plantedDir : Disk :=
  [("app.log.20160101.000001", .symlink "app.log.20160101.000000")]

/-- The sink that `Open("app.log", 0, 0, 1)` returns in `plantedDir` at
2016-01-01 00:00:00. -/
def plantedLog : Sys :=
  ⟨⟨some ⟨"app.log.20160101.000000", "app.log.20160101.000000", false⟩,
      ".20060102.150405", "app.log", 0, 0, 0, 1⟩,
    [("app.log", .symlink "app.log.20160101.000000"),
     ("app.log.20160101.000000", .regular []),
     ("app.log.20160101.000001", .symlink "app.log.20160101.000000")]⟩

/-- The sink `plantedLog` after three bytes were written, the sink was rotated
one second later and the purge pass of that rotation completed. -/
def plantedLater : Sys :=
  ⟨⟨some ⟨"app.log.20160101.000001", "app.log.20160101.000000", false⟩,
      ".20060102.150405", "app.log", 3, 0, 0, 1⟩,
    [("app.log", .symlink "app.log.20160101.000001"),
     ("app.log.20160101.000001", .symlink "app.log.20160101.000000")]⟩

/-- The sink `hourLog` after a rotation at 03:00:00, every call succeeding. -/
def hourLogNext : Sys :=
  ⟨⟨some ⟨"app.log.20161030.030000", "app.log.20161030.030000", false⟩,
      ".20060102.150405", "app.log", 0, 3600, 0, 1⟩,
    [("app.log", .symlink "app.log.20161030.030000"),
     ("app.log.20161030.030000", .regular []),
     ("app.log.20161030.025959", .regular [])]⟩

/-- The sink `hourLog` after a rotation at 03:00:00 that created the new file
and then failed: the handle is the previous file, closed. -/
def hourLogStuck : Sys :=
  ⟨⟨some ⟨"app.log.20161030.025959", "app.log.20161030.025959", true⟩,
      ".20060102.150405", "app.log", 0, 3600, 0, 1⟩,
    [("app.log.20161030.030000", .regular []),
     ("app.log", .symlink "app.log.20161030.025959"),
     ("app.log.20161030.025959", .regular [])]⟩

/-- The sink that `Open("./app.log", 3600, 0, 1)` returns in an empty directory
at 02:59:59 on 2016-10-30. -/
def dotLog : Sys :=
  ⟨⟨some ⟨"./app.log.20161030.025959", "./app.log.20161030.025959", false⟩,
      ".20060102.150405", "./app.log", 0, 3600, 0, 1⟩,
    [("./app.log", .symlink "app.log.20161030.025959"),
     ("./app.log.20161030.025959", .regular [])]⟩

/-- A directory that holds a log file of the coming hour. -/
def lateDir : Disk :=
  [("app.log.20161030.030000", .regular [4])]

/-- The sink that `Open("app.log", 3600, 0, 1)` returns in `lateDir` at
02:59:59 on 2016-10-30. -/
def lateLog : Sys :=
  ⟨⟨some ⟨"app.log.20161030.025959", "app.log.20161030.025959", false⟩,
      ".20060102.150405", "app.log", 0, 3600, 0, 1⟩,
    [("app.log", .symlink "app.log.20161030.025959"),
     ("app.log.20161030.025959", .regular []),
     ("app.log.20161030.030000", .regular [4])]⟩

/-- A directory in which the name of the present second has been planted as a
symbolic link to a name of the year 2099. -/
def farDir : Disk :=
  [("app.log.20161030.025959", .symlink "app.log.20991231.000000")]

/-- The sink that `Open("app.log", 3600, 0, 1)` returns in `farDir` at
02:59:59 on 2016-10-30. -/
def farLog : Sys :=
  ⟨⟨some ⟨"app.log.20161030.025959", "app.log.20991231.000000", false⟩,
      ".20060102.150405", "app.log", 0, 3600, 0, 1⟩,
    [("app.log", .symlink "app.log.20161030.025959"),
     ("app.log.20991231.000000", .regular []),
     ("app.log.20161030.025959", .symlink "app.log.20991231.000000")]⟩

/-- A directory that holds one log file of an earlier day. -/
def agedDir : Disk :=
  [("app.log.20151231.235959", .regular [5])]

/-- The sink that `Open("app.log", 1, 0, 2)` returns in `agedDir` at
2016-01-01 00:00:00. -/
def agedLog : Sys :=
  ⟨⟨some ⟨"app.log.20160101.000000", "app.log.20160101.000000", false⟩,
      ".20060102.150405", "app.log", 0, 1, 0, 2⟩,
    [("app.log", .symlink "app.log.20160101.000000"),
     ("app.log.20160101.000000", .regular []),
     ("app.log.20151231.235959", .regular [5])]⟩

/-- The operations applied to `agedLog`: a write, the rotation of the next
second, the purge pass it launches, the rotation of the second after, and a
`Close`. -/
def agedOps : List Op :=
  [.write [1] none (calm ".20160101.000000"),
   .rotate (calm ".20160101.000001"),
   .purge (fun _ => none)
     ["app.log", "app.log.20151231.235959", "app.log.20160101.000000",
      "app.log.20160101.000001"],
   .rotate (calm ".20160101.000002"),
   .close none]

/-- One argument list of `Write`. -/
structure WriteCall where
  p : List Byte
  fault : Option (Nat × Error)
  env : RotateEnv

/-- A sequence of `Write` calls: the final state and everything observed. -/
def writeAll : Sys → List WriteCall → Sys × List Event
  | s, [] => (s, [])
  | s, c :: cs =>
    let o := Logfile.Write s c.p c.fault c.env
    let rest := writeAll o.sys cs
    (rest.1, o.events ++ rest.2)

/-- The value of `lf.size` right after the `lf.size += int64(n)` of a `Write`
with these arguments. -/
def postWriteSize (s : Sys) (c : WriteCall) : Int :=
  match s.lf.file with
  | none => s.lf.size
  | some f => s.lf.size + (f.Write s.disk c.p c.fault).2.1

/-- The cumulative size stays at or below `maxSize` throughout the calls. -/
def staysWithin : Sys → List WriteCall → Prop
  | _, [] => True
  | s, c :: cs =>
    postWriteSize s c ≤ s.lf.maxSize ∧ staysWithin (Logfile.Write s c.p c.fault c.env).sys cs

/-- The bytes the calls hand over to the descriptor, in order. -/
def acceptedBytes : List WriteCall → List Byte
  | [] => []
  | c :: cs => c.p.take (written c.p c.fault) ++ acceptedBytes cs


/-! ## Properties -/

/-! ### Arithmetic of the scheduler -/

theorem wrap64_of_range (x : Int) (h1 : -(2 ^ 63) ≤ x) (h2 : x < 2 ^ 63) : wrap64 x = x := by
  unfold wrap64
  rw [Int.emod_eq_of_lt (by omega) (by omega)]
  omega

/-- C7 (fails as stated): with the clock five nanoseconds before 1970 and a
period of one second the wake instant is 1e9, although 0 is a multiple of the
period above `now`, and the sleep exceeds the period; with a period of 2^55
seconds the nanosecond count wraps to 0 and the division panics; at the last
representable instant the sum wraps below `now`. -/
theorem cycleNext_not_always_aligned :
    (cycleNext 1 (-5) = some 1000000000 ∧ ¬ ((1000000000 : Int) - 1 * 1000000000 ≤ -5)
      ∧ (1 * 1000000000 : Int) ∣ 0 ∧ (-5 : Int) < 0 ∧ (0 : Int) < 1000000000
      ∧ cycleSleep 1 (-5) = some 1000000005
      ∧ ¬ ((1000000005 : Int) ≤ 1 * 1000000000))
    ∧ cycleNext 36028797018963968 5 = none
    ∧ (cycleNext 1 9223372036854775807 = some (-9223372036709551616)
      ∧ ¬ ((9223372036854775807 : Int) < -9223372036709551616)) := by
  decide

/-- C7 (amended): for a positive period whose nanosecond count fits in `int64`,
a clock at or after 1970 and a wake instant that fits in `int64`, the wake
instant is `(now/ns)*ns + ns`, the smallest multiple of `ns` strictly greater
than `now`, and the sleep lies in `(0, ns]`. -/
theorem cycleNext_aligned (seconds now : Int) (hs : 0 < seconds) (hnow : 0 ≤ now)
    (hns : seconds * 1000000000 < 2 ^ 63)
    (hnext : now / (seconds * 1000000000) * (seconds * 1000000000)
      + seconds * 1000000000 < 2 ^ 63) :
    cycleNext seconds now
        = some (now / (seconds * 1000000000) * (seconds * 1000000000)
            + seconds * 1000000000)
    ∧ (seconds * 1000000000) ∣
        (now / (seconds * 1000000000) * (seconds * 1000000000) + seconds * 1000000000)
    ∧ now < now / (seconds * 1000000000) * (seconds * 1000000000) + seconds * 1000000000
    ∧ now / (seconds * 1000000000) * (seconds * 1000000000) + seconds * 1000000000
        - seconds * 1000000000 ≤ now
    ∧ (∀ m : Int, (seconds * 1000000000) ∣ m → now < m →
        now / (seconds * 1000000000) * (seconds * 1000000000) + seconds * 1000000000 ≤ m)
    ∧ cycleSleep seconds now
        = some (now / (seconds * 1000000000) * (seconds * 1000000000)
            + seconds * 1000000000 - now)
    ∧ 0 < now / (seconds * 1000000000) * (seconds * 1000000000)
            + seconds * 1000000000 - now
    ∧ now / (seconds * 1000000000) * (seconds * 1000000000)
            + seconds * 1000000000 - now ≤ seconds * 1000000000 := by
  have hpos : 0 < seconds * 1000000000 := by omega
  generalize hnsdef : seconds * 1000000000 = ns at *
  have hq0 : 0 ≤ now / ns := Int.ediv_nonneg hnow (le_of_lt hpos)
  have hle : now / ns * ns ≤ now := Int.ediv_mul_le now (ne_of_gt hpos)
  have hlt : now < (now / ns + 1) * ns := Int.lt_ediv_add_one_mul_self now hpos
  have hlt2 : now < now / ns * ns + ns := by
    have : (now / ns + 1) * ns = now / ns * ns + ns := by ring
    omega
  have hprod0 : 0 ≤ now / ns * ns := Int.mul_nonneg hq0 (le_of_lt hpos)
  have hqle : now / ns ≤ now / ns * ns := by
    have : now / ns * 1 ≤ now / ns * ns := Int.mul_le_mul_of_nonneg_left (by omega) hq0
    simpa using this
  have hnow63 : now < 2 ^ 63 := by omega
  have hnext_eq : cycleNext seconds now = some (now / ns * ns + ns) := by
    unfold cycleNext
    simp only [hnsdef]
    rw [wrap64_of_range ns (by omega) (by omega)]
    rw [if_neg (ne_of_gt hpos)]
    rw [Int.tdiv_eq_ediv hnow (le_of_lt hpos)]
    rw [wrap64_of_range (now / ns) (by omega) (by omega)]
    rw [wrap64_of_range (now / ns * ns) (by omega) (by omega)]
    rw [wrap64_of_range (now / ns * ns + ns) (by omega) (by omega)]
  refine ⟨hnext_eq, ?_, hlt2, by omega, ?_, ?_, by omega, by omega⟩
  · exact Dvd.intro_left (now / ns + 1) (by ring)
  · intro m hm hnm
    obtain ⟨c, rfl⟩ := hm
    have hc : now / ns < c := by
      by_contra hcon
      have hcle : c ≤ now / ns := by omega
      have : ns * c ≤ ns * (now / ns) := Int.mul_le_mul_of_nonneg_left hcle (le_of_lt hpos)
      have h2 : ns * (now / ns) = now / ns * ns := by ring
      omega
    have : ns * (now / ns + 1) ≤ ns * c := Int.mul_le_mul_of_nonneg_left (by omega) (le_of_lt hpos)
    have h3 : ns * (now / ns + 1) = now / ns * ns + ns := by ring
    omega
  · unfold cycleSleep
    rw [hnext_eq]
    simp only [Option.map_some']
    rw [wrap64_of_range _ (by omega) (by omega)]

/-- Witness of `cycleNext_aligned`: a one-minute period at 2016-01-01 00:00:05. -/
theorem cycleNext_aligned_witness :
    cycleNext 60 1451606405000000000
      = some (1451606405000000000 / (60 * 1000000000) * (60 * 1000000000)
          + 60 * 1000000000) :=
  (cycleNext_aligned 60 1451606405000000000 (by decide) (by decide) (by decide)
    (by decide)).1

/-! ### Facts about the operating-system layer -/

theorem openFile_ok (d : Disk) (name : String) (fault : Option Error) (d1 : Disk)
    (file : Option File) (h : openFile d name fault = (d1, file, none)) :
    ∃ path, file = some ⟨name, path, false⟩ := by
  unfold openFile at h
  split at h
  · simp at h
  · split at h
    · simp at h
    · rename_i path _
      split at h
      · simp only [Prod.mk.injEq] at h
        exact ⟨path, h.2.1.symm⟩
      · simp only [Prod.mk.injEq] at h
        exact ⟨path, h.2.1.symm⟩

theorem openFile_err_disk (d : Disk) (name : String) (fault : Option Error) (d1 : Disk)
    (file : Option File) (e : Error) (h : openFile d name fault = (d1, file, some e)) :
    d1 = d := by
  unfold openFile at h
  split at h
  · simp only [Prod.mk.injEq] at h
    exact h.1.symm
  · split at h
    · simp only [Prod.mk.injEq] at h
      exact h.1.symm
    · split at h <;> simp at h

theorem replace_baseName (lf : Logfile) (d : Disk) (nf : Option File)
    (cf sf : Option Error) : (lf.replace d nf cf sf).1.baseName = lf.baseName := by
  unfold Logfile.replace
  cases hf : lf.file <;> simp only [] <;> (repeat' split) <;> rfl

theorem replace_ok_file (lf : Logfile) (d : Disk) (nf : Option File)
    (cf sf : Option Error) (lf1 : Logfile) (h : lf.replace d nf cf sf = (lf1, none)) :
    lf1.file = nf := by
  unfold Logfile.replace at h
  cases hf : lf.file with
  | none =>
    simp only [hf] at h
    cases nf with
    | none => simp only [Prod.mk.injEq, and_true] at h; rw [← h]
    | some f =>
      simp only [] at h
      split at h
      · simp at h
      · simp only [Prod.mk.injEq, and_true] at h; rw [← h]
  | some f0 =>
    simp only [hf] at h
    cases hc : (f0.Close cf).2 with
    | some e => simp [hc] at h
    | none =>
      simp only [hc] at h
      cases nf with
      | none => simp only [Prod.mk.injEq, and_true] at h; rw [← h]
      | some f =>
        simp only [] at h
        split at h
        · simp at h
        · simp only [Prod.mk.injEq, and_true] at h; rw [← h]

theorem rotate_noop (s : Sys) (env : RotateEnv)
    (h : sameName s.lf.file (s.lf.baseName ++ env.stamp) = true) :
    Logfile.rotate s env = ⟨s, none, [.rotate]⟩ := by
  unfold Logfile.rotate
  simp only [h, if_true]

theorem rotate_baseName (s : Sys) (env : RotateEnv) :
    (Logfile.rotate s env).sys.lf.baseName = s.lf.baseName := by
  unfold Logfile.rotate
  simp only []
  split
  · rfl
  · split
    · rfl
    · split
      · rename_i h
        have := replace_baseName s.lf ‹Disk› ‹Option File› env.closeFault env.statFault
        rw [h] at this
        exact this
      · rename_i h
        have := replace_baseName s.lf ‹Disk› ‹Option File› env.closeFault env.statFault
        rw [h] at this
        exact this

theorem rotate_ok_sameName (s : Sys) (env : RotateEnv)
    (h : (Logfile.rotate s env).err = none) :
    sameName (Logfile.rotate s env).sys.lf.file (s.lf.baseName ++ env.stamp) = true := by
  unfold Logfile.rotate at h ⊢
  simp only [] at h ⊢
  split
  · assumption
  · rename_i hsame
    simp only [hsame] at h
    split
    · rename_i heq
      simp [heq] at h
    · rename_i d1 file heq
      obtain ⟨path, rfl⟩ := openFile_ok _ _ _ _ _ heq
      split
      · rename_i hrep
        simp [heq, hrep] at h
      · rename_i lf1 hrep
        have := replace_ok_file _ _ _ _ _ _ hrep
        simp [this, sameName]


/-! ### Rotation -/

/-- C6: when the active file already carries the candidate name, `rotate`
returns no error and changes nothing (same sink, same directory, no purge
launched); hence after a rotation that succeeded, a second one computing the
same candidate name is such a no-op, whatever the system calls would have
answered. -/
theorem rotate_same_candidate_noop (s : Sys) (env : RotateEnv) :
    (∀ f, s.lf.file = some f → f.name = s.lf.baseName ++ env.stamp →
        Logfile.rotate s env = ⟨s, none, [.rotate]⟩)
    ∧ ((Logfile.rotate s env).err = none → ∀ env2 : RotateEnv, env2.stamp = env.stamp →
        Logfile.rotate (Logfile.rotate s env).sys env2
          = ⟨(Logfile.rotate s env).sys, none, [.rotate]⟩) := by
  constructor
  · intro f hf hn
    apply rotate_noop
    simp [sameName, hf, hn]
  · intro h env2 h2
    apply rotate_noop
    rw [rotate_baseName, h2]
    exact rotate_ok_sameName s env h

/-- Witness of `rotate_same_candidate_noop`: a second rotation within the
second in which the sink was opened. -/
theorem rotate_same_candidate_noop_witness :
    Logfile.rotate appLog (calm ".20160101.000000") = ⟨appLog, none, [.rotate]⟩ :=
  (rotate_same_candidate_noop appLog (calm ".20160101.000000")).1
    ⟨"app.log.20160101.000000", "app.log.20160101.000000", false⟩ rfl (by decide)

/-- C10: when opening the candidate fails, `rotate` returns that error and
leaves sink and directory as they were, launching no purge; a `Write` whose
size-triggered rotation fails so reports the full count with that error, the
bytes appended to the active file, which stays active, and a later `Write`
whose rotation fails the same way appends to that file again. -/
theorem rotate_open_failure (s : Sys) (env : RotateEnv) (e : Error)
    (hname : sameName s.lf.file (s.lf.baseName ++ env.stamp) = false) :
    ((openFile s.disk (s.lf.baseName ++ env.stamp) env.openFault).2.2 = some e →
        Logfile.rotate s env = ⟨s, some e, [.rotate]⟩)
    ∧ (env.openFault = some e → ∀ (f : File) (p : List Byte),
        s.lf.file = some f → f.closed = false →
        0 < s.lf.maxSize → s.lf.maxSize < s.lf.size + p.length →
        Logfile.Write s p none env
          = ⟨⟨{ s.lf with size := s.lf.size + p.length }, appendData s.disk f.path p⟩,
              p.length, some e, [.rotate]⟩
        ∧ ∀ (p2 : List Byte) (fault2 : Option (Nat × Error)) (env2 : RotateEnv) (e2 : Error),
            env2.openFault = some e2 →
            sameName (some f) (s.lf.baseName ++ env2.stamp) = false →
            (Logfile.Write (Logfile.Write s p none env).sys p2 fault2 env2).sys
              = ⟨{ s.lf with size := s.lf.size + p.length + written p2 fault2 },
                  appendData (appendData s.disk f.path p) f.path
                    (p2.take (written p2 fault2))⟩
            ∧ (Logfile.Write (Logfile.Write s p none env).sys p2 fault2 env2).n
              = written p2 fault2) := by
  have hrot : ∀ (s : Sys) (env : RotateEnv) (e : Error),
      sameName s.lf.file (s.lf.baseName ++ env.stamp) = false →
      (openFile s.disk (s.lf.baseName ++ env.stamp) env.openFault).2.2 = some e →
      Logfile.rotate s env = ⟨s, some e, [.rotate]⟩ := by
    intro s env e hname hopen
    unfold Logfile.rotate
    simp only [hname, Bool.false_eq_true, if_false]
    split
    · rename_i d1 x e1 heq
      have hd := openFile_err_disk _ _ _ _ _ _ heq
      rw [heq] at hopen
      simp only [Option.some.injEq] at hopen
      subst hd
      subst hopen
      rfl
    · rename_i heq
      rw [heq] at hopen
      simp at hopen
  have hfault : ∀ (d : Disk) (name : String) (env : RotateEnv) (e : Error),
      env.openFault = some e → (openFile d name env.openFault).2.2 = some e := by
    intro d name env e h
    simp [openFile, h]
  refine ⟨hrot s env e hname, ?_⟩
  intro hopen f p hf hcl hmax hsize
  have hw : Logfile.Write s p none env
      = ⟨⟨{ s.lf with size := s.lf.size + p.length }, appendData s.disk f.path p⟩,
          p.length, some e, [.rotate]⟩ := by
    unfold Logfile.Write
    simp only [hf, File.Write, hcl, written, List.take_length, Option.map_none']
    simp only [Bool.false_eq_true, if_false]
    rw [if_pos ⟨hmax, hsize⟩]
    rw [hrot _ env e (by simpa [hf] using hname) (hfault _ _ env e hopen)]
  refine ⟨hw, ?_⟩
  intro p2 fault2 env2 e2 hopen2 hname2
  rw [hw]
  unfold Logfile.Write
  simp only [hf, File.Write, hcl, Bool.false_eq_true, if_false]
  cases hfl : fault2 with
  | some ke => simp
  | none =>
    simp only [Option.map_none']
    split
    · rw [hrot _ env2 e2 (by simpa using hname2) (hfault _ _ env2 e2 hopen2)]
      simp
    · simp

/-- Witness of `rotate_open_failure`: a rotation one second after the sink
was opened, refused by the operating system. -/
theorem rotate_open_failure_witness :
    Logfile.rotate appLog ⟨".20160101.000001", some (.sys 13), none, none, none, none⟩
      = ⟨appLog, some (.sys 13), [.rotate]⟩ :=
  (rotate_open_failure appLog ⟨".20160101.000001", some (.sys 13), none, none, none, none⟩
    (.sys 13) (by decide)).1 (by decide)

/-! ### Close -/

/-- C3 (fails as stated): when closing the active file fails, `Close` returns
the error and keeps handle and size; the next `Write` goes to the closed
descriptor, whose error is not the invalid-state one, and a second `Close`
fails as well. -/
theorem close_failure_keeps_handle :
    (Logfile.Close appLogWritten (some (.sys 5))).2 = some (.sys 5)
    ∧ (Logfile.Close appLogWritten (some (.sys 5))).1.lf.file
        = some ⟨"app.log.20160101.000000", "app.log.20160101.000000", true⟩
    ∧ (Logfile.Close appLogWritten (some (.sys 5))).1.lf.size = 3
    ∧ (Logfile.Write (Logfile.Close appLogWritten (some (.sys 5))).1 [4] none
        (calm ".20160101.000000")).err = some .ErrClosed
    ∧ (Logfile.Write (Logfile.Close appLogWritten (some (.sys 5))).1 [4] none
        (calm ".20160101.000000")).sys.lf.file ≠ none
    ∧ (Logfile.Write (Logfile.Close appLogWritten (some (.sys 5))).1 [4] none
        (calm ".20160101.000000")).sys.lf.size ≠ 0
    ∧ (Logfile.Close (Logfile.Close appLogWritten (some (.sys 5))).1 none).2
        = some .ErrClosed := by
  decide

/-- C3 (amended): after a `Close` that returned no error the sink has no
active file and size 0 and the directory is as before; every `Write` then
returns count 0 with `os.ErrInvalid`, appends nothing and leaves the sink so;
a second `Close` returns no error and changes nothing. -/
theorem write_after_close (s : Sys) (fault : Option Error)
    (h : (Logfile.Close s fault).2 = none) :
    (Logfile.Close s fault).1.lf.file = none
    ∧ (Logfile.Close s fault).1.lf.size = 0
    ∧ (Logfile.Close s fault).1.disk = s.disk
    ∧ (∀ (p : List Byte) (wf : Option (Nat × Error)) (env : RotateEnv),
        Logfile.Write (Logfile.Close s fault).1 p wf env
          = ⟨(Logfile.Close s fault).1, 0, some .ErrInvalid, []⟩)
    ∧ ∀ fault2 : Option Error,
        Logfile.Close (Logfile.Close s fault).1 fault2 = ((Logfile.Close s fault).1, none) := by
  have hrep : ∃ lf1, s.lf.replace s.disk none fault none = (lf1, none) := by
    refine ⟨(s.lf.replace s.disk none fault none).1, ?_⟩
    have : (s.lf.replace s.disk none fault none).2 = none := h
    exact Prod.ext rfl this
  obtain ⟨lf1, hlf1⟩ := hrep
  have hfile : lf1.file = none := replace_ok_file _ _ _ _ _ _ hlf1
  have hsize : lf1.size = 0 := by
    unfold Logfile.replace at hlf1
    cases hf : s.lf.file with
    | none =>
      simp only [hf, Prod.mk.injEq, and_true] at hlf1
      rw [← hlf1]
    | some f0 =>
      simp only [hf] at hlf1
      cases hc : (f0.Close fault).2 with
      | some e => simp [hc] at hlf1
      | none =>
        simp only [hc, Prod.mk.injEq, and_true] at hlf1
        rw [← hlf1]
  have hclose : Logfile.Close s fault = (⟨lf1, s.disk⟩, none) := by
    simp [Logfile.Close, hlf1]
  rw [hclose]
  refine ⟨hfile, hsize, rfl, ?_, ?_⟩
  · intro p wf env
    simp [Logfile.Write, hfile]
  · intro fault2
    simp only [Logfile.Close, Logfile.replace, hfile]
    cases lf1
    simp only [Prod.mk.injEq, and_true] at *
    subst hfile
    subst hsize
    rfl

/-- Witness of `write_after_close`: closing the freshly opened sink. -/
theorem write_after_close_witness :
    (Logfile.Close appLog none).1.lf.file = none :=
  (write_after_close appLog none (by decide)).1

/-! ### Write -/

theorem rotate_events_mem (s : Sys) (env : RotateEnv) :
    Event.rotate ∈ (Logfile.rotate s env).events := by
  unfold Logfile.rotate
  simp only []
  split
  · simp
  · split
    · simp
    · split <;> simp

theorem appendData_appendData (d : Disk) (path : String) (a b : List Byte) :
    appendData (appendData d path a) path b = appendData d path (a ++ b) := by
  unfold appendData
  rw [List.map_map]
  apply List.map_congr_left
  intro e _
  simp only [Function.comp]
  by_cases h : e.1 = path
  · simp only [h, if_true]
    cases e.2 <;> simp [appendNode]
  · simp only [h, if_false]

theorem appendData_nil (d : Disk) (path : String) : appendData d path [] = d := by
  unfold appendData
  conv_rhs => rw [← List.map_id d]
  apply List.map_congr_left
  intro e _
  by_cases h : e.1 = path
  · simp only [h, if_true, id]
    cases e with
    | mk k v => cases v <;> simp_all [appendNode]
  · simp only [h, if_false, id]

/-- What `Write` does when the size threshold is not crossed. -/
theorem write_within (s : Sys) (f : File) (c : WriteCall) (hf : s.lf.file = some f)
    (h : postWriteSize s c ≤ s.lf.maxSize) :
    Logfile.Write s c.p c.fault c.env
      = ⟨⟨{ s.lf with size := s.lf.size + (f.Write s.disk c.p c.fault).2.1 },
            (f.Write s.disk c.p c.fault).1⟩,
          (f.Write s.disk c.p c.fault).2.1, (f.Write s.disk c.p c.fault).2.2, []⟩ := by
  unfold postWriteSize at h
  simp only [hf] at h
  unfold Logfile.Write
  simp only [hf]
  split
  · rename_i heq
    simp [heq]
  · rename_i heq
    simp only [heq] at h ⊢
    rw [if_neg (by intro hc; exact absurd hc.2 (not_lt.mpr h))]

theorem writeAll_within (calls : List WriteCall) :
    ∀ (s : Sys) (f : File), s.lf.file = some f → staysWithin s calls →
      Event.rotate ∉ (writeAll s calls).2
      ∧ (writeAll s calls).1.lf.file = some f
      ∧ (f.closed = false →
          (writeAll s calls).1.disk = appendData s.disk f.path (acceptedBytes calls)
          ∧ (writeAll s calls).1.lf.size = s.lf.size + (acceptedBytes calls).length)
      ∧ (f.closed = true →
          (writeAll s calls).1.disk = s.disk ∧ (writeAll s calls).1.lf.size = s.lf.size) := by
  induction calls with
  | nil =>
    intro s f hf _
    simp [writeAll, acceptedBytes, appendData_nil, hf]
  | cons c cs ih =>
    intro s f hf hst
    obtain ⟨h1, h2⟩ := hst
    have hw := write_within s f c hf h1
    rw [hw] at h2
    have ih1 := ih _ f (by simpa using hf) h2
    simp only [writeAll, hw, List.nil_append]
    refine ⟨ih1.1, ih1.2.1, ?_, ?_⟩
    · intro hcl
      have ih2 := ih1.2.2.1 hcl
      simp only [File.Write, hcl, Bool.false_eq_true, if_false] at ih2 ⊢
      refine ⟨?_, ?_⟩
      · rw [ih2.1, appendData_appendData]
        rfl
      · rw [ih2.2]
        simp only [acceptedBytes, List.length_append, List.length_take, written]
        push_cast
        cases c.fault <;> simp <;> omega
    · intro hcl
      have ih2 := ih1.2.2.2 hcl
      simp only [File.Write, hcl, if_true] at ih2 ⊢
      refine ⟨ih2.1, ?_⟩
      rw [ih2.2]
      simp

theorem staysWithin_take (calls : List WriteCall) :
    ∀ (s : Sys) (k : Nat), staysWithin s calls → staysWithin s (calls.take k) := by
  induction calls with
  | nil => intro s k h; simpa using h
  | cons c cs ih =>
    intro s k h
    cases k with
    | zero => simp [staysWithin]
    | succ k =>
      simp only [List.take_succ_cons, staysWithin] at h ⊢
      exact ⟨h.1, ih _ k h.2⟩

/-- C1: with an active file, `Write` enters `rotate` exactly when the append
returned no error, `maxSize > 0` and size-before plus count-written exceeds
`maxSize`; a failed append returns the partial count and its error, the size
advanced by that count, without rotating; and while the cumulative size stays
at or below `maxSize`, no call rotates, the active file stays the same after
every call and all accepted bytes are appended to it. -/
theorem write_rotates_iff (s : Sys) (f : File) (hf : s.lf.file = some f) :
    (∀ (p : List Byte) (fault : Option (Nat × Error)) (env : RotateEnv),
      (Event.rotate ∈ (Logfile.Write s p fault env).events ↔
        ((f.Write s.disk p fault).2.2 = none ∧ 0 < s.lf.maxSize
          ∧ s.lf.maxSize < s.lf.size + (f.Write s.disk p fault).2.1))
      ∧ (∀ e, (f.Write s.disk p fault).2.2 = some e →
          Logfile.Write s p fault env
            = ⟨⟨{ s.lf with size := s.lf.size + (f.Write s.disk p fault).2.1 },
                  (f.Write s.disk p fault).1⟩,
                (f.Write s.disk p fault).2.1, some e, []⟩))
    ∧ ∀ calls : List WriteCall, staysWithin s calls → ∀ k : Nat,
        Event.rotate ∉ (writeAll s (calls.take k)).2
        ∧ (writeAll s (calls.take k)).1.lf.file = some f
        ∧ (f.closed = false →
            (writeAll s (calls.take k)).1.disk
              = appendData s.disk f.path (acceptedBytes (calls.take k))) := by
  refine ⟨?_, ?_⟩
  · intro p fault env
    refine ⟨?_, ?_⟩
    · unfold Logfile.Write
      simp only [hf]
      split
      · rename_i heq
        simp [heq]
      · rename_i heq
        simp only [heq]
        split
        · rename_i hc
          simp only [true_and]
          exact ⟨fun _ => hc, fun _ => rotate_events_mem _ _⟩
        · rename_i hc
          simp only [true_and, List.not_mem_nil, false_iff]
          exact hc
    · intro e he
      unfold Logfile.Write
      simp only [hf]
      split
      · rename_i heq
        simp only [heq] at he ⊢
        simp only [Option.some.injEq] at he
        rw [he]
      · rename_i heq
        simp [heq] at he
  · intro calls hst k
    have h := writeAll_within (calls.take k) s f hf (staysWithin_take calls s k hst)
    exact ⟨h.1, h.2.1, fun hcl => (h.2.2.1 hcl).1⟩


/-- Witness of `write_rotates_iff`: three bytes written to the freshly opened
sink, whose threshold is 1024. -/
theorem write_rotates_iff_witness :
    Event.rotate ∉ (writeAll appLog
        ([⟨[1, 2, 3], none, calm ".20160101.000007"⟩].take 1)).2
    ∧ (writeAll appLog ([⟨[1, 2, 3], none, calm ".20160101.000007"⟩].take 1)).1.lf.file
        = some ⟨"app.log.20160101.000000", "app.log.20160101.000000", false⟩ :=
  have h := (write_rotates_iff appLog
    ⟨"app.log.20160101.000000", "app.log.20160101.000000", false⟩ rfl).2
    [⟨[1, 2, 3], none, calm ".20160101.000007"⟩] ⟨by decide, trivial⟩ 1
  ⟨h.1, h.2.1⟩

/-! ### Facts about the directory -/

theorem lookupNode_eraseNode (d : Disk) (k path : String) :
    lookupNode (eraseNode d k) path = if k = path then none else lookupNode d path := by
  induction d with
  | nil => simp [eraseNode, lookupNode]
  | cons e rest ih =>
    obtain ⟨k0, v0⟩ := e
    unfold eraseNode at ih ⊢
    by_cases h0 : k0 = k
    · subst h0
      simp only [List.filter_cons, ne_eq, not_true_eq_false, decide_False,
        Bool.false_eq_true, if_false, lookupNode]
      rw [ih]
      by_cases h1 : k0 = path <;> simp [h1]
    · simp only [List.filter_cons, ne_eq, h0, not_false_eq_true, decide_True, if_true,
        lookupNode]
      rw [ih]
      by_cases h1 : k0 = path
      · subst h1
        simp [Ne.symm h0]
      · simp [h1]

theorem lookupNode_setNode (d : Disk) (k path : String) (v : Node) :
    lookupNode (setNode d k v) path = if k = path then some v else lookupNode d path := by
  unfold setNode
  simp only [lookupNode]
  by_cases h : k = path
  · simp [h]
  · simp only [h, if_false]
    rw [lookupNode_eraseNode]
    simp [h]

theorem lookupNode_cons (k0 : String) (v0 : Node) (rest : Disk) (path : String) :
    lookupNode ((k0, v0) :: rest) path
      = if k0 = path then some v0 else lookupNode rest path := rfl

theorem appendData_cons (k0 : String) (v0 : Node) (rest : Disk) (k : String)
    (bytes : List Byte) :
    appendData ((k0, v0) :: rest) k bytes
      = (k0, if k0 = k then appendNode bytes v0 else v0) :: appendData rest k bytes := by
  unfold appendData
  by_cases h : k0 = k <;> simp [h]

theorem lookupNode_appendData (d : Disk) (k path : String) (bytes : List Byte) :
    lookupNode (appendData d k bytes) path
      = if k = path then (lookupNode d path).map (appendNode bytes) else lookupNode d path := by
  induction d with
  | nil => simp [appendData, lookupNode]
  | cons e rest ih =>
    obtain ⟨k0, v0⟩ := e
    rw [appendData_cons, lookupNode_cons, lookupNode_cons, ih]
    by_cases h0 : k0 = k
    · subst h0
      by_cases h1 : k0 = path <;> simp [h1]
    · by_cases h1 : k0 = path
      · subst h1
        simp [h0, Ne.symm h0]
      · simp [h0, h1]

theorem osRemove_lookup_cases (d : Disk) (x path : String) (fault : Option Error) :
    lookupNode (osRemove d x fault).1 path = lookupNode d path
    ∨ (path = x ∧ lookupNode (osRemove d x fault).1 path = none) := by
  unfold osRemove
  cases h : lookupNode d x with
  | none => exact Or.inl rfl
  | some v =>
    cases fault with
    | some e => exact Or.inl rfl
    | none =>
      simp only [lookupNode_eraseNode]
      by_cases hx : x = path
      · exact Or.inr ⟨hx.symm, by simp [hx]⟩
      · exact Or.inl (by simp [hx])

theorem osRemove_lookup_ne (d : Disk) (x path : String) (fault : Option Error)
    (h : path ≠ x) : lookupNode (osRemove d x fault).1 path = lookupNode d path := by
  rcases osRemove_lookup_cases d x path fault with h1 | ⟨h1, _⟩
  · exact h1
  · exact absurd h1 h

theorem osSymlink_lookup_ne (d : Disk) (t x path : String) (fault : Option Error)
    (h : path ≠ x) : lookupNode (osSymlink d t x fault).1 path = lookupNode d path := by
  unfold osSymlink
  cases lookupNode d x with
  | some v => rfl
  | none =>
    cases fault with
    | some e => rfl
    | none =>
      simp only [lookupNode_setNode]
      rw [if_neg (Ne.symm h)]

theorem resolve_of_not_symlink (d : Disk) (path : String) (fuel : Nat)
    (h : ∀ t, lookupNode d path ≠ some (.symlink t)) :
    resolve (fuel + 1) d path = some path := by
  unfold resolve
  split
  · rename_i t heq
    exact absurd heq (h t)
  · rfl

/-- A successful `openFile` on a name that is not a symbolic link. -/
theorem openFile_plain (d : Disk) (name : String)
    (h : ∀ t, lookupNode d name ≠ some (.symlink t)) :
    openFile d name none
      = ((match lookupNode d name with
          | none => setNode d name (.regular [])
          | some _ => d), some ⟨name, name, false⟩, none) := by
  unfold openFile
  simp only [resolve_of_not_symlink d name maxLinks h]
  cases lookupNode d name <;> rfl

theorem fileLen_openFile_plain (d : Disk) (name : String)
    (h : ∀ t, lookupNode d name ≠ some (.symlink t)) :
    fileLen (openFile d name none).1 name = fileLen d name := by
  rw [openFile_plain d name h]
  unfold fileLen
  cases hl : lookupNode d name with
  | none => simp [lookupNode_setNode, hl]
  | some v => simp [hl]

/-- What `rotate` does when it switches files and open, close and stat succeed. -/
theorem rotate_switch (s : Sys) (env : RotateEnv)
    (hold : ∀ f, s.lf.file = some f → f.closed = false ∧ f.name ≠ s.lf.baseName ++ env.stamp)
    (hlink : ∀ t, lookupNode s.disk (s.lf.baseName ++ env.stamp) ≠ some (.symlink t))
    (hopen : env.openFault = none) (hclose : env.closeFault = none)
    (hstat : env.statFault = none) :
    Logfile.rotate s env
      = ⟨⟨{ s.lf with
              size := (fileLen s.disk (s.lf.baseName ++ env.stamp) : Nat)
              file := some ⟨s.lf.baseName ++ env.stamp, s.lf.baseName ++ env.stamp, false⟩ },
            (osSymlink
              (osRemove (openFile s.disk (s.lf.baseName ++ env.stamp) none).1
                s.lf.baseName env.removeFault).1
              (splitPath (s.lf.baseName ++ env.stamp)).2 s.lf.baseName env.symlinkFault).1⟩,
          none,
          [.rotate]
            ++ existWarning (osRemove (openFile s.disk (s.lf.baseName ++ env.stamp) none).1
                s.lf.baseName env.removeFault).2
            ++ ErrWarning (osSymlink
              (osRemove (openFile s.disk (s.lf.baseName ++ env.stamp) none).1
                s.lf.baseName env.removeFault).1
              (splitPath (s.lf.baseName ++ env.stamp)).2 s.lf.baseName env.symlinkFault).2
            ++ [.purge]⟩ := by
  have hsame : sameName s.lf.file (s.lf.baseName ++ env.stamp) = false := by
    unfold sameName
    cases hf : s.lf.file with
    | none => rfl
    | some f => simp [(hold f hf).2]
  have hlen := fileLen_openFile_plain s.disk _ hlink
  have hop := openFile_plain s.disk _ hlink
  unfold Logfile.rotate
  simp only [hsame, Bool.false_eq_true, if_false, hopen]
  rw [hop] at hlen ⊢
  simp only [] at hlen ⊢
  have hrep : s.lf.replace
      (match lookupNode s.disk (s.lf.baseName ++ env.stamp) with
        | none => setNode s.disk (s.lf.baseName ++ env.stamp) (.regular [])
        | some _ => s.disk)
      (some ⟨s.lf.baseName ++ env.stamp, s.lf.baseName ++ env.stamp, false⟩)
      env.closeFault env.statFault
      = ({ s.lf with
            size := (fileLen s.disk (s.lf.baseName ++ env.stamp) : Nat)
            file := some ⟨s.lf.baseName ++ env.stamp, s.lf.baseName ++ env.stamp, false⟩ },
          none) := by
    unfold Logfile.replace
    cases hf : s.lf.file with
    | none => simp [File.Stat, hstat, hlen]
    | some f => simp [File.Close, (hold f hf).1, hclose, File.Stat, hstat, hlen]
  rw [hrep]

theorem existWarning_count (err : Option Error) (ev : Event)
    (h : ∀ e, ev ≠ .warning e) : (existWarning err).count ev = 0 := by
  unfold existWarning
  split
  · simp
  · rename_i e _
    simp [List.count_cons, (h e).symm]
  · simp

theorem ErrWarning_count (err : Option Error) (ev : Event)
    (h : ∀ e, ev ≠ .warning e) : (ErrWarning err).count ev = 0 := by
  unfold ErrWarning
  split
  · rename_i e
    simp [List.count_cons, (h e).symm]
  · simp

theorem lookupNode_appendData_symlink (d : Disk) (k path : String) (bytes : List Byte)
    (h : ∀ t, lookupNode d path ≠ some (.symlink t)) :
    ∀ t, lookupNode (appendData d k bytes) path ≠ some (.symlink t) := by
  intro t
  rw [lookupNode_appendData]
  by_cases hk : k = path
  · simp only [hk, if_true]
    cases hl : lookupNode d path with
    | none => simp
    | some v =>
      cases v with
      | regular data => simp [appendNode]
      | symlink t0 => exact absurd hl (h t0)
  · simp only [hk, if_false]
    exact h t

/-- What `Write` does when the whole slice is appended and the size threshold
is crossed. -/
theorem write_trigger (s : Sys) (f : File) (p : List Byte) (env : RotateEnv)
    (hf : s.lf.file = some f) (hcl : f.closed = false)
    (hmax : 0 < s.lf.maxSize) (hsize : s.lf.maxSize < s.lf.size + p.length) :
    Logfile.Write s p none env
      = ⟨(Logfile.rotate ⟨{ s.lf with size := s.lf.size + p.length },
            appendData s.disk f.path p⟩ env).sys, p.length,
          (Logfile.rotate ⟨{ s.lf with size := s.lf.size + p.length },
            appendData s.disk f.path p⟩ env).err,
          (Logfile.rotate ⟨{ s.lf with size := s.lf.size + p.length },
            appendData s.disk f.path p⟩ env).events⟩ := by
  unfold Logfile.Write
  simp only [hf, File.Write, hcl, written, List.take_length, Option.map_none',
    Bool.false_eq_true, if_false]
  rw [if_pos ⟨hmax, hsize⟩]

/-- What `rotate` does when opening the candidate is refused. -/
theorem rotate_openFault (s : Sys) (env : RotateEnv) (e : Error)
    (hname : sameName s.lf.file (s.lf.baseName ++ env.stamp) = false)
    (hopen : env.openFault = some e) :
    Logfile.rotate s env = ⟨s, some e, [.rotate]⟩ := by
  unfold Logfile.rotate
  simp only [hname, Bool.false_eq_true, if_false, openFile, hopen]

/-- `openFile` leaves every entry that exists as it is. -/
theorem openFile_keeps (d : Disk) (name : String) (fault : Option Error) (x : String)
    (v : Node) (h : lookupNode d x = some v) :
    lookupNode (openFile d name fault).1 x = some v := by
  unfold openFile
  cases fault with
  | some e => exact h
  | none =>
    simp only []
    cases hr : resolve (maxLinks + 1) d name with
    | none => exact h
    | some path =>
      simp only []
      cases hl : lookupNode d path with
      | some w => exact h
      | none =>
        simp only [lookupNode_setNode]
        by_cases hx : path = x
        · rw [hx, h] at hl
          simp at hl
        · rw [if_neg hx]
          exact h

/-- What `rotate` does when it switches files, given what the open returned,
with close and stat succeeding. -/
theorem rotate_switch_at (s : Sys) (env : RotateEnv) (d1 : Disk) (path : String)
    (hold : ∀ f, s.lf.file = some f → f.closed = false ∧ f.name ≠ s.lf.baseName ++ env.stamp)
    (hop : openFile s.disk (s.lf.baseName ++ env.stamp) env.openFault
      = (d1, some ⟨s.lf.baseName ++ env.stamp, path, false⟩, none))
    (hclose : s.lf.file ≠ none → env.closeFault = none) (hstat : env.statFault = none) :
    Logfile.rotate s env
      = ⟨⟨{ s.lf with
              size := (fileLen d1 path : Nat)
              file := some ⟨s.lf.baseName ++ env.stamp, path, false⟩ },
            (osSymlink (osRemove d1 s.lf.baseName env.removeFault).1
              (splitPath (s.lf.baseName ++ env.stamp)).2 s.lf.baseName env.symlinkFault).1⟩,
          none,
          [.rotate]
            ++ existWarning (osRemove d1 s.lf.baseName env.removeFault).2
            ++ ErrWarning (osSymlink (osRemove d1 s.lf.baseName env.removeFault).1
              (splitPath (s.lf.baseName ++ env.stamp)).2 s.lf.baseName env.symlinkFault).2
            ++ [.purge]⟩ := by
  have hsame : sameName s.lf.file (s.lf.baseName ++ env.stamp) = false := by
    unfold sameName
    cases hf : s.lf.file with
    | none => rfl
    | some f => simp [(hold f hf).2]
  unfold Logfile.rotate
  simp only [hsame, Bool.false_eq_true, if_false]
  rw [hop]
  simp only []
  have hrep : s.lf.replace d1 (some ⟨s.lf.baseName ++ env.stamp, path, false⟩)
      env.closeFault env.statFault
      = ({ s.lf with
            size := (fileLen d1 path : Nat)
            file := some ⟨s.lf.baseName ++ env.stamp, path, false⟩ }, none) := by
    unfold Logfile.replace
    cases hf : s.lf.file with
    | none => simp [File.Stat, hstat]
    | some f =>
      have hc := hclose (by rw [hf]; simp)
      simp [File.Close, (hold f hf).1, hc, File.Stat, hstat]
  rw [hrep]

/-- C2 (fails as stated): 2000 bytes written to the sink of
`Open("app.log", 0, 1024, 0)` within the second in which it was opened enter
`rotate`, which finds the candidate name already active: the file stays the
same and the size stays 2000.  One second later, with a two-byte file already
present under the candidate name, the files are switched and the size is 2;
with the open of the candidate refused, nothing is switched; and with the
candidate name planted as a symbolic link to the active file, the new
descriptor is attached to the file the bytes were appended to and the size
is 2000. -/
theorem write_over_threshold_same_second :
    ((Open [] "app.log" 0 1024 0 (calm ".20160101.000000")).sink = some (.rotating appLog.lf)
      ∧ (Open [] "app.log" 0 1024 0 (calm ".20160101.000000")).disk = appLog.disk)
    ∧ ((Logfile.Write appLog (List.replicate 2000 0) none (calm ".20160101.000000")).err = none
      ∧ (Logfile.Write appLog (List.replicate 2000 0) none (calm ".20160101.000000")).n = 2000
      ∧ (Logfile.Write appLog (List.replicate 2000 0) none
          (calm ".20160101.000000")).sys.lf.file = appLog.lf.file
      ∧ (Logfile.Write appLog (List.replicate 2000 0) none
          (calm ".20160101.000000")).sys.lf.size = 2000
      ∧ (Logfile.Write appLog (List.replicate 2000 0) none
          (calm ".20160101.000000")).events = [.rotate])
    ∧ ((Logfile.Write appLogStale (List.replicate 2000 0) none
          (calm ".20160101.000001")).err = none
      ∧ (Logfile.Write appLogStale (List.replicate 2000 0) none
          (calm ".20160101.000001")).sys.lf.file
          = some ⟨"app.log.20160101.000001", "app.log.20160101.000001", false⟩
      ∧ (Logfile.Write appLogStale (List.replicate 2000 0) none
          (calm ".20160101.000001")).sys.lf.size = 2)
    ∧ ((Logfile.Write appLog (List.replicate 2000 0) none
          ⟨".20160101.000001", some (.sys 13), none, none, none, none⟩).err = some (.sys 13)
      ∧ (Logfile.Write appLog (List.replicate 2000 0) none
          ⟨".20160101.000001", some (.sys 13), none, none, none, none⟩).sys.lf.file
          = appLog.lf.file)
    ∧ ((Logfile.Write appLogLinked (List.replicate 2000 0) none
          (calm ".20160101.000001")).err = none
      ∧ (Logfile.Write appLogLinked (List.replicate 2000 0) none
          (calm ".20160101.000001")).sys.lf.file
          = some ⟨"app.log.20160101.000001", "app.log.20160101.000000", false⟩
      ∧ (Logfile.Write appLogLinked (List.replicate 2000 0) none
          (calm ".20160101.000001")).sys.lf.size = 2000) := by
  refine ⟨by decide, ?_, ?_, ?_, ?_⟩
  · rw [write_trigger appLog ⟨"app.log.20160101.000000", "app.log.20160101.000000", false⟩
      (List.replicate 2000 0) (calm ".20160101.000000") rfl rfl (by decide)
      (by simp only [List.length_replicate]; decide)]
    rw [rotate_noop _ _ (by decide)]
    refine ⟨rfl, ?_, rfl, ?_, rfl⟩
    · simp only [List.length_replicate]
    · simp only [List.length_replicate]
      decide
  · rw [write_trigger appLogStale
      ⟨"app.log.20160101.000000", "app.log.20160101.000000", false⟩
      (List.replicate 2000 0) (calm ".20160101.000001") rfl rfl (by decide)
      (by simp only [List.length_replicate]; decide)]
    have hlook : lookupNode (appendData appLogStale.disk "app.log.20160101.000000"
          (List.replicate 2000 0)) ("app.log" ++ ".20160101.000001")
          = some (.regular [9, 9]) := by
      rw [lookupNode_appendData]
      decide
    rw [rotate_switch _ _ (by intro f hf; cases hf; decide)
      (by
        intro t h
        have h2 : lookupNode (appendData appLogStale.disk "app.log.20160101.000000"
            (List.replicate 2000 0)) ("app.log" ++ ".20160101.000001")
            = some (.symlink t) := h
        rw [hlook] at h2
        simp at h2) rfl rfl rfl]
    have hlen : fileLen (appendData appLogStale.disk "app.log.20160101.000000"
        (List.replicate 2000 0)) ("app.log" ++ ".20160101.000001") = 2 := by
      unfold fileLen
      rw [hlook]
      rfl
    refine ⟨rfl, by decide, ?_⟩
    show ((fileLen (appendData appLogStale.disk "app.log.20160101.000000"
        (List.replicate 2000 0)) ("app.log" ++ ".20160101.000001") : Nat) : Int) = 2
    rw [hlen]
    rfl
  · rw [write_trigger appLog ⟨"app.log.20160101.000000", "app.log.20160101.000000", false⟩
      (List.replicate 2000 0) ⟨".20160101.000001", some (.sys 13), none, none, none, none⟩
      rfl rfl (by decide) (by simp only [List.length_replicate]; decide)]
    rw [rotate_openFault _ _ (.sys 13) (by decide) rfl]
    exact ⟨rfl, rfl⟩
  · rw [write_trigger appLogLinked
      ⟨"app.log.20160101.000000", "app.log.20160101.000000", false⟩
      (List.replicate 2000 0) (calm ".20160101.000001") rfl rfl (by decide)
      (by simp only [List.length_replicate]; decide)]
    have hop : openFile (appendData appLogLinked.disk "app.log.20160101.000000"
          (List.replicate 2000 0)) ("app.log" ++ ".20160101.000001") none
        = (appendData appLogLinked.disk "app.log.20160101.000000" (List.replicate 2000 0),
            some ⟨"app.log" ++ ".20160101.000001", "app.log.20160101.000000", false⟩,
            none) := by
      have h1 : lookupNode (appendData appLogLinked.disk "app.log.20160101.000000"
            (List.replicate 2000 0)) ("app.log" ++ ".20160101.000001")
            = some (.symlink "app.log.20160101.000000") := by
        rw [lookupNode_appendData]
        decide
      have h2 : lookupNode (appendData appLogLinked.disk "app.log.20160101.000000"
            (List.replicate 2000 0)) "app.log.20160101.000000"
            = some (.regular ([] ++ List.replicate 2000 0)) := by
        rw [lookupNode_appendData]
        rfl
      have h3 : linkDest ("app.log" ++ ".20160101.000001") "app.log.20160101.000000"
          = "app.log.20160101.000000" := by decide
      unfold openFile
      simp only []
      rw [show maxLinks + 1 = (maxLinks - 1 + 1) + 1 from rfl]
      rw [resolve, h1]
      simp only [h3]
      rw [resolve, h2]
      simp only [h2]
    have hlen : fileLen (appendData appLogLinked.disk "app.log.20160101.000000"
        (List.replicate 2000 0)) "app.log.20160101.000000" = 2000 := by
      have h2 : lookupNode (appendData appLogLinked.disk "app.log.20160101.000000"
            (List.replicate 2000 0)) "app.log.20160101.000000"
            = some (.regular ([] ++ List.replicate 2000 0)) := by
        rw [lookupNode_appendData]
        rfl
      unfold fileLen
      rw [h2]
      simp only [List.nil_append, List.length_replicate]
    rw [rotate_switch_at _ _ _ _ (by intro f hf; cases hf; decide) hop (fun _ => rfl) rfl]
    refine ⟨rfl, rfl, ?_⟩
    show ((fileLen (appendData appLogLinked.disk "app.log.20160101.000000"
        (List.replicate 2000 0)) "app.log.20160101.000000" : Nat) : Int) = 2000
    rw [hlen]
    rfl

/-- C2 (amended): for a sink with `maxSize > 0` and an open active file, a
`Write` whose append succeeds and pushes the size above `maxSize` enters
`rotate` once.  When the candidate name is the name of the active file, nothing
is switched: the bytes are appended, the same file stays active and the size
stays above `maxSize`.  When the candidate name differs and is not a symbolic
link, and open, close and stat succeed: the candidate is the active file when
`Write` returns; the size is the length the candidate has on disk, 0 when it
did not exist; one purge is launched; the entry of the previous file, when a
regular file not at the base name, holds the written bytes at its end; and a
later `Write` within the threshold appends to the candidate. -/
theorem write_rotation_switch (s : Sys) (f : File) (p : List Byte) (env : RotateEnv)
    (hf : s.lf.file = some f) (hcl : f.closed = false)
    (hmax : 0 < s.lf.maxSize) (hsize : s.lf.maxSize < s.lf.size + p.length) :
    (f.name = s.lf.baseName ++ env.stamp →
      Logfile.Write s p none env
        = ⟨⟨{ s.lf with size := s.lf.size + p.length }, appendData s.disk f.path p⟩,
            p.length, none, [.rotate]⟩)
    ∧ (f.name ≠ s.lf.baseName ++ env.stamp →
      (∀ t, lookupNode s.disk (s.lf.baseName ++ env.stamp) ≠ some (.symlink t)) →
      env.openFault = none → env.closeFault = none → env.statFault = none →
      (Logfile.Write s p none env).n = p.length
      ∧ (Logfile.Write s p none env).err = none
      ∧ (Logfile.Write s p none env).sys.lf.file
          = some ⟨s.lf.baseName ++ env.stamp, s.lf.baseName ++ env.stamp, false⟩
      ∧ (Logfile.Write s p none env).sys.lf.size
          = (fileLen (appendData s.disk f.path p) (s.lf.baseName ++ env.stamp) : Nat)
      ∧ (lookupNode s.disk (s.lf.baseName ++ env.stamp) = none →
          (Logfile.Write s p none env).sys.lf.size = 0)
      ∧ (Logfile.Write s p none env).events.count .rotate = 1
      ∧ (Logfile.Write s p none env).events.count .purge = 1
      ∧ (∀ data, lookupNode s.disk f.path = some (.regular data) →
          f.path ≠ s.lf.baseName →
          lookupNode (Logfile.Write s p none env).sys.disk f.path
            = some (.regular (data ++ p)))
      ∧ ∀ c : WriteCall,
          postWriteSize (Logfile.Write s p none env).sys c ≤ s.lf.maxSize →
          (Logfile.Write (Logfile.Write s p none env).sys c.p c.fault c.env).sys.disk
            = appendData (Logfile.Write s p none env).sys.disk (s.lf.baseName ++ env.stamp)
                (c.p.take (written c.p c.fault))
          ∧ (Logfile.Write (Logfile.Write s p none env).sys c.p c.fault c.env).sys.lf.file
            = some ⟨s.lf.baseName ++ env.stamp, s.lf.baseName ++ env.stamp, false⟩) := by
  have hw := write_trigger s f p env hf hcl hmax hsize
  refine ⟨?_, ?_⟩
  · intro hname
    rw [hw, rotate_noop _ _ (by simp [sameName, hf, hname])]
  · intro hname hlink hopen hclose hstat
    have hlink2 := lookupNode_appendData_symlink s.disk f.path _ p hlink
    have hrot := rotate_switch ⟨{ s.lf with size := s.lf.size + p.length },
        appendData s.disk f.path p⟩ env
      (by intro f0 hf0
          simp only [hf, Option.some.injEq] at hf0
          subst hf0
          exact ⟨hcl, hname⟩)
      hlink2 hopen hclose hstat
    simp only [] at hrot
    rw [hw, hrot]
    refine ⟨rfl, rfl, rfl, rfl, ?_, ?_, ?_, ?_, ?_⟩
    · intro hnone
      have : fileLen (appendData s.disk f.path p) (s.lf.baseName ++ env.stamp) = 0 := by
        unfold fileLen
        rw [lookupNode_appendData, hnone]
        simp
      rw [this]
      rfl
    · simp [List.count_cons, existWarning_count, ErrWarning_count]
    · simp [List.count_cons, existWarning_count, ErrWarning_count]
    · intro data hdata hbase
      show lookupNode (osSymlink (osRemove (openFile (appendData s.disk f.path p)
        (s.lf.baseName ++ env.stamp) none).1 s.lf.baseName env.removeFault).1
        (splitPath (s.lf.baseName ++ env.stamp)).2 s.lf.baseName env.symlinkFault).1 f.path
        = some (.regular (data ++ p))
      have happ : lookupNode (appendData s.disk f.path p) f.path
          = some (.regular (data ++ p)) := by
        rw [lookupNode_appendData, if_pos rfl, hdata]
        rfl
      rw [osSymlink_lookup_ne _ _ _ _ _ hbase, osRemove_lookup_ne _ _ _ _ hbase,
        openFile_keeps _ _ _ _ _ happ]
    · intro c hc
      have hwn := write_within _
        ⟨s.lf.baseName ++ env.stamp, s.lf.baseName ++ env.stamp, false⟩ c rfl hc
      rw [hwn]
      simp [File.Write]

/-- Witness of `write_rotation_switch`: 2000 bytes written to the sink of
`Open("app.log", 0, 1024, 0)` one second after it was opened. -/
theorem write_rotation_switch_witness :
    (Logfile.Write appLog (List.replicate 2000 0) none (calm ".20160101.000001")).sys.lf.file
      = some ⟨"app.log" ++ ".20160101.000001", "app.log" ++ ".20160101.000001", false⟩
    ∧ (Logfile.Write appLog (List.replicate 2000 0) none
        (calm ".20160101.000001")).sys.lf.size = 0 :=
  have h := (write_rotation_switch appLog
    ⟨"app.log.20160101.000000", "app.log.20160101.000000", false⟩ (List.replicate 2000 0)
    (calm ".20160101.000001") rfl rfl (by decide)
    (by simp only [List.length_replicate]; decide)).2 (by decide)
    (by
      intro t h
      have h2 : lookupNode appLog.disk ("app.log" ++ ".20160101.000001")
          = some (.symlink t) := h
      rw [show lookupNode appLog.disk ("app.log" ++ ".20160101.000001") = none from by decide]
        at h2
      simp at h2) rfl rfl rfl
  ⟨h.2.2.1, h.2.2.2.2.1 (by decide)⟩

/-! ### The current-pointer -/

theorem takeWhile_append_of_all {α : Type} (p : α → Bool) (a b : List α)
    (h : ∀ x ∈ a, p x = true) : (a ++ b).takeWhile p = a ++ b.takeWhile p := by
  induction a with
  | nil => rfl
  | cons x xs ih =>
    have hx : p x = true := h x (List.mem_cons_self x xs)
    simp only [List.cons_append, List.takeWhile_cons, hx, if_true]
    rw [ih (fun y hy => h y (List.mem_cons_of_mem x hy))]

theorem dropWhile_append_of_all {α : Type} (p : α → Bool) (a b : List α)
    (h : ∀ x ∈ a, p x = true) : (a ++ b).dropWhile p = b.dropWhile p := by
  induction a with
  | nil => rfl
  | cons x xs ih =>
    have hx : p x = true := h x (List.mem_cons_self x xs)
    simp only [List.cons_append, List.dropWhile_cons, hx, if_true]
    rw [ih (fun y hy => h y (List.mem_cons_of_mem x hy))]

theorem splitPath_join (path : String) :
    (splitPath path).1 ++ (splitPath path).2 = path := by
  apply String.ext
  simp only [splitPath, String.data_append]
  rw [← List.reverse_append, List.takeWhile_append_dropWhile, List.reverse_reverse]

theorem splitPath_append (base stamp : String) (h : '/' ∉ stamp.data) :
    splitPath (base ++ stamp) = ((splitPath base).1, (splitPath base).2 ++ stamp) := by
  have hall : ∀ x ∈ stamp.data.reverse, decide (x ≠ '/') = true := by
    intro x hx
    have hx2 : x ∈ stamp.data := List.mem_reverse.mp hx
    simp only [ne_eq, decide_not, Bool.not_eq_eq_eq_not, Bool.not_true, decide_eq_false_iff_not]
    intro hc
    exact h (hc ▸ hx2)
  unfold splitPath
  simp only [String.data_append, List.reverse_append]
  rw [takeWhile_append_of_all _ _ _ hall, dropWhile_append_of_all _ _ _ hall]
  simp only [Prod.mk.injEq, true_and]
  apply String.ext
  simp [String.data_append]

theorem splitPath_snd_no_sep (path : String) : '/' ∉ (splitPath path).2.data := by
  unfold splitPath
  simp only [List.mem_reverse]
  intro h
  have := List.mem_takeWhile_imp h
  simp at this

theorem linkDest_relative (link target : String) (h : '/' ∉ target.data) :
    linkDest link target = (splitPath link).1 ++ target := by
  unfold linkDest
  split
  · rename_i heq
    exact absurd (by rw [heq]; exact List.mem_cons_self _ _) h
  · rfl

/-- The pointer that `rotate` writes leads back to the candidate name. -/
theorem linkDest_candidate (base stamp : String) (h : '/' ∉ stamp.data) :
    linkDest base (splitPath (base ++ stamp)).2 = base ++ stamp := by
  rw [linkDest_relative _ _ (splitPath_snd_no_sep _), splitPath_append base stamp h]
  simp only []
  rw [← String.append_assoc, splitPath_join]

theorem osRemove_lookup (d : Disk) (path : String) :
    lookupNode (osRemove d path none).1 path = none := by
  unfold osRemove
  cases h : lookupNode d path with
  | none => simpa using h
  | some v => simp [lookupNode_eraseNode]

theorem osSymlink_ok (d : Disk) (target path : String) (h : lookupNode d path = none) :
    osSymlink d target path none = (setNode d path (.symlink target), none) := by
  unfold osSymlink
  simp [h]

/-- C9 (fails as stated): five bytes written to a sink whose threshold is 4,
one second after it was opened, are appended to the file of the first second;
the rotation that follows succeeds and leaves the pointer naming the empty
file of the next second. -/
theorem pointer_after_size_rotation :
    (Open [] "app.log" 0 4 0 (calm ".20160101.000000")).sink = some (.rotating smallLog.lf)
    ∧ (Open [] "app.log" 0 4 0 (calm ".20160101.000000")).disk = smallLog.disk
    ∧ (Logfile.Write smallLog [1, 2, 3, 4, 5] none (calm ".20160101.000001")).err = none
    ∧ Event.purge ∈ (Logfile.Write smallLog [1, 2, 3, 4, 5] none
        (calm ".20160101.000001")).events
    ∧ lookupNode (Logfile.Write smallLog [1, 2, 3, 4, 5] none
        (calm ".20160101.000001")).sys.disk "app.log.20160101.000000"
        = some (.regular [1, 2, 3, 4, 5])
    ∧ pointerDest (Logfile.Write smallLog [1, 2, 3, 4, 5] none
        (calm ".20160101.000001")).sys.disk "app.log" = some "app.log.20160101.000001"
    ∧ lookupNode (Logfile.Write smallLog [1, 2, 3, 4, 5] none
        (calm ".20160101.000001")).sys.disk "app.log.20160101.000001"
        = some (.regular []) := by
  decide

/-- C9 (amended): after a rotation that switched files without error, when
removing the old pointer and creating the new one succeed and the clock text
holds no path separator, the current-pointer leads to the name of the new
active file, and a later `Write` within the threshold appends to the
descriptor of that file. -/
theorem pointer_names_active (s : Sys) (env : RotateEnv)
    (hsame : sameName s.lf.file (s.lf.baseName ++ env.stamp) = false)
    (herr : (Logfile.rotate s env).err = none)
    (hrm : env.removeFault = none) (hsym : env.symlinkFault = none)
    (hsep : '/' ∉ env.stamp.data) :
    ∃ path : String,
      (Logfile.rotate s env).sys.lf.file = some ⟨s.lf.baseName ++ env.stamp, path, false⟩
      ∧ pointerDest (Logfile.rotate s env).sys.disk s.lf.baseName
          = some (s.lf.baseName ++ env.stamp)
      ∧ ∀ c : WriteCall,
          postWriteSize (Logfile.rotate s env).sys c ≤ (Logfile.rotate s env).sys.lf.maxSize →
          (Logfile.Write (Logfile.rotate s env).sys c.p c.fault c.env).sys.disk
            = appendData (Logfile.rotate s env).sys.disk path (c.p.take (written c.p c.fault))
          ∧ (Logfile.Write (Logfile.rotate s env).sys c.p c.fault c.env).sys.lf.file
            = some ⟨s.lf.baseName ++ env.stamp, path, false⟩ := by
  unfold Logfile.rotate at herr ⊢
  simp only [hsame, Bool.false_eq_true, if_false] at herr ⊢
  split
  · rename_i heq
    simp [heq] at herr
  · rename_i d1 file heq
    obtain ⟨path, rfl⟩ := openFile_ok _ _ _ _ _ heq
    split
    · rename_i hrep
      simp [heq, hrep] at herr
    · rename_i lf1 hrep
      have hfile := replace_ok_file _ _ _ _ _ _ hrep
      refine ⟨path, hfile, ?_, ?_⟩
      · simp only [hrm, hsym]
        rw [osSymlink_ok _ _ _ (osRemove_lookup d1 s.lf.baseName)]
        unfold pointerDest
        simp only [lookupNode_setNode, if_true]
        rw [linkDest_candidate _ _ hsep]
      · intro c hc
        have hwn := write_within _ ⟨s.lf.baseName ++ env.stamp, path, false⟩ c hfile hc
        rw [hwn]
        simp [File.Write, hfile]

/-- Witness of `pointer_names_active`: the rotation of the freshly opened sink
one second later. -/
theorem pointer_names_active_witness :
    pointerDest (Logfile.rotate appLog (calm ".20160101.000001")).sys.disk "app.log"
      = some ("app.log" ++ ".20160101.000001") :=
  (pointer_names_active appLog (calm ".20160101.000001") (by decide) (by decide) rfl rfl
    (by decide)).elim (fun _ h => h.2.1)

/-! ### Purge -/

theorem sliceFrom_ok (x : String) (k : Nat) (h : k ≤ x.length) :
    sliceFrom x k = some (String.mk (x.data.drop k)) := by
  unfold sliceFrom
  rw [if_pos h]

/-- The first loop of `purge` is a filter. -/
theorem purgeScan_split (parses : String → Bool) (k : Nat) :
    ∀ (fuel : Nat) (a b : List String), b.length ≤ fuel → (∀ x ∈ b, k ≤ x.length) →
      purgeScan parses k fuel (a ++ b) a.length (a.length + b.length)
        = some (a ++ b.filter (suffixParses parses k),
            a.length + (b.filter (suffixParses parses k)).length) := by
  intro fuel
  induction fuel with
  | zero =>
    intro a b hb _
    have : b = [] := List.length_eq_zero.mp (Nat.le_zero.mp hb)
    subst this
    simp [purgeScan]
  | succ fuel ih =>
    intro a b hb hk
    cases b with
    | nil => simp [purgeScan]
    | cons x b =>
      have hlt : a.length < a.length + (x :: b).length := by simp
      have hget : (a ++ x :: b).get? a.length = some x := by
        rw [List.get?_eq_getElem?, List.getElem?_append_right (le_refl _)]
        simp
      have hx : k ≤ x.length := hk x (List.mem_cons_self x b)
      have hb2 : b.length ≤ fuel := by
        simp only [List.length_cons] at hb
        omega
      have hk2 : ∀ y ∈ b, k ≤ y.length := fun y hy => hk y (List.mem_cons_of_mem x hy)
      unfold purgeScan
      rw [if_pos hlt, hget]
      simp only [sliceFrom_ok x k hx]
      by_cases hp : parses (String.mk (x.data.drop k)) = true
      · rw [if_pos hp]
        have hstep := ih (a ++ [x]) b hb2 hk2
        have e1 : a ++ x :: b = (a ++ [x]) ++ b := by simp
        have e2 : a.length + 1 = (a ++ [x]).length := by simp
        have e3 : a.length + (x :: b).length = (a ++ [x]).length + b.length := by
          simp only [List.length_cons, List.length_append, List.length_nil]
          omega
        rw [e1, e2, e3, hstep]
        have hf : (x :: b).filter (suffixParses parses k)
            = x :: b.filter (suffixParses parses k) := by
          simp [List.filter_cons, suffixParses, hp]
        rw [hf]
        simp only [List.append_assoc, List.singleton_append, List.length_append,
          List.length_cons, List.length_nil, Option.some.injEq, Prod.mk.injEq, true_and]
        omega
      · rw [if_neg hp]
        have hstep := ih a b hb2 hk2
        have e1 : (a ++ x :: b).take a.length ++ (a ++ x :: b).drop (a.length + 1) = a ++ b := by
          have hd : (a ++ x :: b).drop (a.length + 1) = b := by
            rw [← List.drop_drop, List.drop_left]
            rfl
          rw [List.take_left, hd]
        have e3 : a.length + (x :: b).length - 1 = a.length + b.length := by
          simp only [List.length_cons]
          omega
        rw [e1, e3, hstep]
        have hf : (x :: b).filter (suffixParses parses k)
            = b.filter (suffixParses parses k) := by
          simp [List.filter_cons, suffixParses, hp]
        rw [hf]

theorem purgeScan_eq_filter (parses : String → Bool) (k : Nat) (names : List String)
    (h : ∀ x ∈ names, k ≤ x.length) :
    purgeScan parses k names.length names 0 names.length
      = some (names.filter (suffixParses parses k),
          (names.filter (suffixParses parses k)).length) := by
  have := purgeScan_split parses k names.length [] names (le_refl _) h
  simpa using this

/-- The second loop of `purge` leaves every entry as it was or removes it, and
it removes only listed names other than the active one. -/
theorem purgeRemove_lookup (active : Option File) (rm : String → Option Error)
    (xs : List String) :
    ∀ (d : Disk) (path : String),
      lookupNode (purgeRemove active rm d xs).1 path = lookupNode d path
      ∨ (lookupNode (purgeRemove active rm d xs).1 path = none
          ∧ path ∈ xs ∧ sameName active path = false) := by
  induction xs with
  | nil => intro d path; exact Or.inl rfl
  | cons x xs ih =>
    intro d path
    unfold purgeRemove
    by_cases hs : sameName active x = true
    · rw [if_pos hs]
      rcases ih d path with h | ⟨h1, h2, h3⟩
      · exact Or.inl h
      · exact Or.inr ⟨h1, List.mem_cons_of_mem x h2, h3⟩
    · rw [if_neg hs]
      simp only []
      rcases ih (osRemove d x (rm x)).1 path with h | ⟨h1, h2, h3⟩
      · rcases osRemove_lookup_cases d x path (rm x) with h' | ⟨h1', h2'⟩
        · exact Or.inl (h.trans h')
        · refine Or.inr ⟨h.trans h2', ?_, ?_⟩
          · rw [h1']
            exact List.mem_cons_self x xs
          · rw [h1']
            simpa using hs
      · exact Or.inr ⟨h1, List.mem_cons_of_mem x h2, h3⟩

theorem mem_sortStrings (names : List String) (x : String) :
    x ∈ sortStrings names ↔ x ∈ names :=
  (List.perm_insertionSort strLe names).mem_iff

/-- C5: given names that extend the base name, `purge` does not panic; every
directory entry is left as it was or removed, and a removed one is a listed
name whose text after the base name parses and which is not the name of the
active file; with `maxCount <= 0`, or no more parsing names than `maxCount`,
the directory is left as it was. -/
theorem purge_removes_only (s : Sys) (parses : String → Bool)
    (rm : String → Option Error) (names : List String)
    (hpre : ∀ x ∈ names, s.lf.baseName.data <+: x.data) :
    ∃ out : Disk × List Event,
      Logfile.purge s parses rm names = some out
      ∧ (∀ path : String,
          lookupNode out.1 path = lookupNode s.disk path
          ∨ (lookupNode out.1 path = none ∧ path ∈ names
              ∧ suffixParses parses s.lf.baseName.length path = true
              ∧ sameName s.lf.file path = false))
      ∧ ((s.lf.maxCount ≤ 0
            ∨ ((names.filter (suffixParses parses s.lf.baseName.length)).length : Int)
                ≤ s.lf.maxCount) →
          out = (s.disk, [])) := by
  have hlen : ∀ x ∈ names, s.lf.baseName.length ≤ x.length := by
    intro x hx
    exact (hpre x hx).length_le
  unfold Logfile.purge
  by_cases hmc : s.lf.maxCount ≤ 0
  · rw [if_pos hmc]
    exact ⟨_, rfl, fun _ => Or.inl rfl, fun _ => rfl⟩
  · rw [if_neg hmc, purgeScan_eq_filter parses _ names hlen]
    simp only []
    by_cases hex : 0 < ((names.filter (suffixParses parses s.lf.baseName.length)).length : Int)
        - s.lf.maxCount
    · rw [if_pos hex]
      refine ⟨_, rfl, ?_, ?_⟩
      · intro path
        rcases purgeRemove_lookup s.lf.file rm _ s.disk path with h | ⟨h1, h2, h3⟩
        · exact Or.inl h
        · have hm := (mem_sortStrings _ path).mp (List.mem_of_mem_take h2)
          rw [List.mem_filter] at hm
          exact Or.inr ⟨h1, hm.1, hm.2, h3⟩
      · intro hno
        rcases hno with h | h
        · exact absurd h hmc
        · omega
    · rw [if_neg hex]
      exact ⟨_, rfl, fun _ => Or.inl rfl, fun _ => rfl⟩

/-- Witness of `purge_removes_only`: a directory with three log files, the
pointer and one unrelated file, with two files to be kept. -/
theorem purge_removes_only_witness :
    ∃ out : Disk × List Event,
      Logfile.purge threeLogs stampLike (fun _ => none)
        ["app.log", "app.log.20160101.000000", "app.log.20160101.000001",
         "app.log.20160101.000002", "app.log.txt"] = some out :=
  (purge_removes_only threeLogs stampLike (fun _ => none)
    ["app.log", "app.log.20160101.000000", "app.log.20160101.000001",
     "app.log.20160101.000002", "app.log.txt"] (by decide)).elim
    (fun out h => ⟨out, h.1⟩)

/-! ### Order and sorting -/

theorem bytesLe_total : ∀ a b : List Char, bytesLe a b = true ∨ bytesLe b a = true := by
  intro a
  induction a with
  | nil => intro b; exact Or.inl (by simp [bytesLe])
  | cons x xs ih =>
    intro b
    cases b with
    | nil => exact Or.inr (by simp [bytesLe])
    | cons y ys =>
      unfold bytesLe
      by_cases h1 : x.toNat < y.toNat
      · exact Or.inl (by simp [h1])
      · by_cases h2 : y.toNat < x.toNat
        · exact Or.inr (by simp [h2])
        · simp only [h1, h2, if_false]
          exact ih ys

theorem bytesLe_trans : ∀ a b c : List Char,
    bytesLe a b = true → bytesLe b c = true → bytesLe a c = true := by
  intro a
  induction a with
  | nil => intro b c _ _; simp [bytesLe]
  | cons x xs ih =>
    intro b c hab hbc
    cases b with
    | nil => simp [bytesLe] at hab
    | cons y ys =>
      cases c with
      | nil => simp [bytesLe] at hbc
      | cons z zs =>
        unfold bytesLe at hab hbc ⊢
        by_cases h1 : x.toNat < y.toNat
        · by_cases h2 : y.toNat < z.toNat
          · have : x.toNat < z.toNat := by omega
            simp [this]
          · by_cases h3 : z.toNat < y.toNat
            · simp [h2, h3] at hbc
            · have : x.toNat < z.toNat := by omega
              simp [this]
        · by_cases h1' : y.toNat < x.toNat
          · simp [h1, h1'] at hab
          · simp only [h1, h1', if_false] at hab
            by_cases h2 : y.toNat < z.toNat
            · have : x.toNat < z.toNat := by omega
              simp [this]
            · by_cases h3 : z.toNat < y.toNat
              · simp [h2, h3] at hbc
              · simp only [h2, h3, if_false] at hbc
                have e1 : ¬ x.toNat < z.toNat := by omega
                have e2 : ¬ z.toNat < x.toNat := by omega
                simp only [e1, e2, if_false]
                exact ih ys zs hab hbc

theorem sortStrings_sorted (names : List String) :
    (sortStrings names).Pairwise strLe :=
  @List.sorted_insertionSort String strLe _
    ⟨fun a b => bytesLe_total a.data b.data⟩
    ⟨fun a b c => bytesLe_trans a.data b.data c.data⟩ names

theorem sortStrings_perm (names : List String) : (sortStrings names).Perm names :=
  List.perm_insertionSort strLe names

theorem sortStrings_nodup (names : List String) (h : names.Nodup) :
    (sortStrings names).Nodup :=
  (sortStrings_perm names).nodup_iff.mpr h

/-- In a sorted list without repetition, each of the first `e` names is below
and different from each of the others. -/
theorem sortStrings_take_le_drop (names : List String) (h : names.Nodup) (e : Nat) :
    ∀ x ∈ (sortStrings names).take e, ∀ y ∈ (sortStrings names).drop e,
      strLe x y ∧ x ≠ y := by
  intro x hx y hy
  have hs := sortStrings_sorted names
  have hn := sortStrings_nodup names h
  rw [← List.take_append_drop e (sortStrings names)] at hs hn
  rw [List.pairwise_append] at hs
  refine ⟨hs.2.2 x hx y hy, ?_⟩
  intro hxy
  have := (List.nodup_append.mp hn).2.2
  exact this hx (hxy ▸ hy)

/-! ### Purge and the directory -/

theorem lookupNode_eq_none_iff (d : Disk) (x : String) :
    lookupNode d x = none ↔ x ∉ diskNames d := by
  induction d with
  | nil => simp [lookupNode, diskNames]
  | cons e rest ih =>
    obtain ⟨k0, v0⟩ := e
    rw [lookupNode_cons]
    unfold diskNames at ih ⊢
    by_cases h : k0 = x
    · simp [h]
    · simp only [h, if_false, List.map_cons, List.mem_cons]
      rw [ih]
      constructor
      · intro hn hc
        rcases hc with hc | hc
        · exact h hc.symm
        · exact hn hc
      · intro hn hc
        exact hn (Or.inr hc)

theorem eraseNode_eq_filter (d : Disk) (x : String) :
    (osRemove d x none).1 = d.filter (fun e => decide (e.1 ≠ x)) := by
  unfold osRemove
  cases h : lookupNode d x with
  | some v => rfl
  | none =>
    simp only []
    symm
    rw [List.filter_eq_self]
    intro e he
    have hx := (lookupNode_eq_none_iff d x).mp h
    simp only [ne_eq, decide_not, Bool.not_eq_eq_eq_not, Bool.not_true, decide_eq_false_iff_not]
    intro hc
    exact hx (hc ▸ List.mem_map_of_mem Prod.fst he)

/-- With every removal succeeding and the active file not listed, the second
loop of `purge` removes exactly the listed names. -/
theorem purgeRemove_all (active : Option File) (xs : List String) :
    ∀ d : Disk, (∀ x ∈ xs, sameName active x = false) →
      (purgeRemove active (fun _ => none) d xs).1
        = d.filter (fun e => decide (e.1 ∉ xs)) := by
  induction xs with
  | nil =>
    intro d _
    simp [purgeRemove]
  | cons x xs ih =>
    intro d h
    have hx : sameName active x = false := h x (List.mem_cons_self x xs)
    unfold purgeRemove
    simp only [hx, Bool.false_eq_true, if_false]
    rw [ih _ (fun y hy => h y (List.mem_cons_of_mem x hy)), eraseNode_eq_filter,
      List.filter_filter]
    apply List.filter_congr
    intro e _
    simp only [List.mem_cons, not_or, ne_eq, decide_not, Bool.decide_and]
    rw [Bool.and_comm]

theorem diskNames_filter (d : Disk) (p : String → Bool) :
    diskNames (d.filter (fun e => p e.1)) = (diskNames d).filter p := by
  unfold diskNames
  rw [List.filter_map]
  rfl

/-! ### The size invariant -/

theorem candidate_ne_base (base stamp : String) (h : stamp ≠ "") : base ++ stamp ≠ base := by
  intro hc
  apply h
  have hd : (base ++ stamp).data = base.data := by rw [hc]
  rw [String.data_append] at hd
  have : stamp.data = [] := by
    have := List.append_right_eq_self.mp hd
    exact this
  exact String.ext this

theorem pointerOnly_osRemove (d : Disk) (base x : String) (fault : Option Error)
    (h : pointerOnly d base) : pointerOnly (osRemove d x fault).1 base := by
  intro k t hk
  rcases osRemove_lookup_cases d x k fault with h1 | ⟨_, h1⟩
  · exact h k t (h1 ▸ hk)
  · rw [h1] at hk
    simp at hk

theorem pointerOnly_osSymlink (d : Disk) (base t : String) (fault : Option Error)
    (h : pointerOnly d base) : pointerOnly (osSymlink d t base fault).1 base := by
  intro k t0 hk
  by_cases hkb : k = base
  · exact hkb
  · rw [osSymlink_lookup_ne d t base k fault hkb] at hk
    exact h k t0 hk

/-- A successful `openFile` on a name that is not a link leaves every other
entry as it was and finds or creates a regular file. -/
theorem openFile_plain_lookup (d : Disk) (name : String)
    (h : ∀ t, lookupNode d name ≠ some (.symlink t)) :
    (∀ path, path ≠ name → lookupNode (openFile d name none).1 path = lookupNode d path)
    ∧ ∃ data, lookupNode (openFile d name none).1 name = some (.regular data) := by
  rw [openFile_plain d name h]
  cases hl : lookupNode d name with
  | none =>
    simp only [lookupNode_setNode]
    exact ⟨fun path hp => by rw [if_neg (Ne.symm hp)], ⟨[], by simp⟩⟩
  | some v =>
    refine ⟨fun _ _ => rfl, ?_⟩
    cases v with
    | regular data => exact ⟨data, hl⟩
    | symlink t => exact absurd hl (h t)

theorem pointerOnly_of_lookup (d d1 : Disk) (base : String) (h : pointerOnly d base)
    (hl : ∀ path, lookupNode d1 path = lookupNode d path
      ∨ (∃ data, lookupNode d1 path = some (.regular data)) ∨ lookupNode d1 path = none) :
    pointerOnly d1 base := by
  intro k t hk
  rcases hl k with h1 | ⟨data, h1⟩ | h1
  · exact h k t (h1 ▸ hk)
  · rw [h1] at hk
    simp at hk
  · rw [h1] at hk
    simp at hk

/-- What `replace` returns: on an error the sink keeps its file (at most marked
closed) and its size; on success the new file is active and the size is its
length, or 0 without a new file. -/
theorem replace_spec (lf : Logfile) (d : Disk) (nf : Option File) (cf sf : Option Error) :
    (lf.replace d nf cf sf).1.baseName = lf.baseName
    ∧ (((lf.replace d nf cf sf).2 ≠ none
          ∧ (lf.replace d nf cf sf).1.size = lf.size
          ∧ (∀ f1, (lf.replace d nf cf sf).1.file = some f1 →
              ∃ f, lf.file = some f ∧ f1.name = f.name ∧ f1.path = f.path)
          ∧ ((lf.replace d nf cf sf).1.file = none → lf.file = none))
        ∨ ((lf.replace d nf cf sf).2 = none
          ∧ (lf.replace d nf cf sf).1.file = nf
          ∧ (lf.replace d nf cf sf).1.size
              = match nf with
                | none => 0
                | some f => (fileLen d f.path : Nat))) := by
  refine ⟨replace_baseName lf d nf cf sf, ?_⟩
  cases hf : lf.file with
  | none =>
    cases nf with
    | none => simp [Logfile.replace, hf]
    | some f =>
      by_cases hc : f.closed = true
      · simp [Logfile.replace, hf, File.Stat, hc]
      · cases sf with
        | some e => simp [Logfile.replace, hf, File.Stat, hc]
        | none => simp [Logfile.replace, hf, File.Stat, hc]
  | some f0 =>
    by_cases hc0 : f0.closed = true
    · simp [Logfile.replace, hf, File.Close, hc0]
    · cases cf with
      | some e => simp [Logfile.replace, hf, File.Close, hc0]
      | none =>
        cases nf with
        | none => simp [Logfile.replace, hf, File.Close, hc0]
        | some f =>
          by_cases hc : f.closed = true
          · simp [Logfile.replace, hf, File.Close, hc0, File.Stat, hc]
          · cases sf with
            | some e => simp [Logfile.replace, hf, File.Close, hc0, File.Stat, hc]
            | none => simp [Logfile.replace, hf, File.Close, hc0, File.Stat, hc]

theorem wellKept_none (lf : Logfile) (d : Disk) (hf : lf.file = none) :
    wellKept ⟨lf, d⟩ ↔ pointerOnly d lf.baseName ∧ lf.size = 0 := by
  unfold wellKept
  simp only [hf]

theorem wellKept_some (lf : Logfile) (d : Disk) (f : File) (hf : lf.file = some f) :
    wellKept ⟨lf, d⟩ ↔ pointerOnly d lf.baseName
      ∧ f.path = f.name ∧ f.name ≠ lf.baseName
      ∧ ∃ data, lookupNode d f.path = some (.regular data) ∧ lf.size = data.length := by
  unfold wellKept
  simp only [hf]

/-- The invariant survives a change of the directory that keeps the pointer
the only link and keeps the entry of the active file, and a change of the
handle that keeps its name and path. -/
theorem wellKept_transfer (lf lf1 : Logfile) (d d1 : Disk)
    (h : wellKept ⟨lf, d⟩) (hb : lf1.baseName = lf.baseName) (hs : lf1.size = lf.size)
    (hp : pointerOnly d1 lf.baseName)
    (hfile : ∀ f1, lf1.file = some f1 →
      ∃ f, lf.file = some f ∧ f1.name = f.name ∧ f1.path = f.path)
    (hnone : lf1.file = none → lf.file = none)
    (hl : ∀ f, lf.file = some f → lookupNode d1 f.path = lookupNode d f.path) :
    wellKept ⟨lf1, d1⟩ := by
  cases hf1 : lf1.file with
  | none =>
    rw [wellKept_none lf1 d1 hf1, hb, hs]
    have hf := hnone hf1
    rw [wellKept_none lf d hf] at h
    exact ⟨hp, h.2⟩
  | some f1 =>
    obtain ⟨f, hf, hn, hpth⟩ := hfile f1 hf1
    rw [wellKept_some lf1 d1 f1 hf1, hb, hs, hn, hpth]
    rw [wellKept_some lf d f hf] at h
    refine ⟨hp, h.2.1, h.2.2.1, ?_⟩
    rw [hl f hf]
    exact h.2.2.2

theorem sameName_false_ne (lf : Logfile) (f : File) (name : String) (hf : lf.file = some f)
    (h : sameName lf.file name = false) : f.name ≠ name := by
  simpa [sameName, hf] using h

/-- `rotate` keeps the invariant, whatever the system calls answer. -/
theorem wellKept_rotate (s : Sys) (env : RotateEnv) (hst : env.stamp ≠ "")
    (h : wellKept s) : wellKept (Logfile.rotate s env).sys := by
  have hcand := candidate_ne_base s.lf.baseName env.stamp hst
  unfold Logfile.rotate
  simp only []
  by_cases hsame : sameName s.lf.file (s.lf.baseName ++ env.stamp) = true
  · rw [if_pos hsame]
    exact h
  · rw [if_neg hsame]
    have hsame : sameName s.lf.file (s.lf.baseName ++ env.stamp) = false := by
      simpa using hsame
    cases hopen : env.openFault with
    | some e =>
      simp only [openFile]
      exact h
    | none =>
      have hlink : ∀ t, lookupNode s.disk (s.lf.baseName ++ env.stamp) ≠ some (.symlink t) :=
        fun t hc => hcand (h.1 _ t hc)
      obtain ⟨hother, data0, hdata0⟩ := openFile_plain_lookup s.disk _ hlink
      have hp1 : pointerOnly (openFile s.disk (s.lf.baseName ++ env.stamp) none).1
          s.lf.baseName := by
        apply pointerOnly_of_lookup s.disk _ _ h.1
        intro path
        by_cases hpc : path = s.lf.baseName ++ env.stamp
        · exact Or.inr (Or.inl ⟨data0, hpc ▸ hdata0⟩)
        · exact Or.inl (hother path hpc)
      have hkeep : ∀ f, s.lf.file = some f →
          lookupNode (openFile s.disk (s.lf.baseName ++ env.stamp) none).1 f.path
            = lookupNode s.disk f.path := by
        intro f hf
        have hk : wellKept ⟨s.lf, s.disk⟩ := h
        rw [wellKept_some s.lf s.disk f hf] at hk
        apply hother
        rw [hk.2.1]
        exact sameName_false_ne s.lf f _ hf hsame
      have hop := openFile_plain s.disk _ hlink
      generalize hd1 : (openFile s.disk (s.lf.baseName ++ env.stamp) none).1 = d1 at *
      have hop2 : openFile s.disk (s.lf.baseName ++ env.stamp) none
          = (d1, some ⟨s.lf.baseName ++ env.stamp, s.lf.baseName ++ env.stamp, false⟩, none) := by
        rw [← hd1, hop]
      rw [hop2]
      simp only []
      have hspec := replace_spec s.lf d1
        (some ⟨s.lf.baseName ++ env.stamp, s.lf.baseName ++ env.stamp, false⟩)
        env.closeFault env.statFault
      generalize s.lf.replace d1
        (some ⟨s.lf.baseName ++ env.stamp, s.lf.baseName ++ env.stamp, false⟩)
        env.closeFault env.statFault = r at hspec ⊢
      obtain ⟨lf1, err⟩ := r
      obtain ⟨hb, hcases⟩ := hspec
      simp only [] at hb hcases
      cases err with
      | some e =>
        simp only []
        rcases hcases with ⟨_, hsz, hfile, hnone⟩ | ⟨hbad, _⟩
        · exact wellKept_transfer s.lf lf1 s.disk d1 h hb hsz hp1 hfile hnone hkeep
        · simp at hbad
      | none =>
        simp only []
        rcases hcases with ⟨hbad, _⟩ | ⟨_, hfile, hsz⟩
        · simp at hbad
        · rw [wellKept_some lf1 _ _ hfile, hb]
          refine ⟨pointerOnly_osSymlink _ _ _ _ (pointerOnly_osRemove _ _ _ _ hp1),
            rfl, hcand, data0, ?_, ?_⟩
          · rw [osSymlink_lookup_ne _ _ _ _ _ hcand, osRemove_lookup_ne _ _ _ _ hcand]
            exact hdata0
          · rw [hsz]
            simp only [fileLen, hdata0]

theorem pointerOnly_appendData (d : Disk) (base path : String) (bytes : List Byte)
    (h : pointerOnly d base) : pointerOnly (appendData d path bytes) base := by
  intro k t hk
  by_contra hkb
  exact lookupNode_appendData_symlink d path k bytes (fun t0 hc => hkb (h k t0 hc)) t hk

theorem written_le (p : List Byte) (fault : Option (Nat × Error)) :
    written p fault ≤ p.length := by
  unfold written
  cases fault with
  | none => exact le_refl _
  | some ke => exact Nat.min_le_right _ _

/-- The append of `Write` keeps the invariant. -/
theorem wellKept_append (s : Sys) (f : File) (p : List Byte) (fault : Option (Nat × Error))
    (hf : s.lf.file = some f) (h : wellKept s) :
    wellKept ⟨{ s.lf with size := s.lf.size + (f.Write s.disk p fault).2.1 },
      (f.Write s.disk p fault).1⟩ := by
  have hk : wellKept ⟨s.lf, s.disk⟩ := h
  rw [wellKept_some s.lf s.disk f hf] at hk
  obtain ⟨hp, hpath, hname, data, hdata, hsize⟩ := hk
  have hf1 : ({ s.lf with size := s.lf.size + (f.Write s.disk p fault).2.1 } : Logfile).file
      = some f := hf
  rw [wellKept_some _ _ f hf1]
  unfold File.Write
  by_cases hc : f.closed = true
  · simp only [hc, if_true]
    exact ⟨hp, hpath, hname, data, hdata, by simp [hsize]⟩
  · simp only [hc, Bool.false_eq_true, if_false]
    refine ⟨pointerOnly_appendData _ _ _ _ hp, hpath, hname,
      data ++ p.take (written p fault), ?_, ?_⟩
    · rw [lookupNode_appendData, if_pos rfl, hdata]
      rfl
    · have := written_le p fault
      simp only [List.length_append, List.length_take, hsize]
      rw [Nat.min_eq_left this]
      push_cast
      rfl

/-- `Write` keeps the invariant, whatever the system calls answer. -/
theorem wellKept_write (s : Sys) (p : List Byte) (fault : Option (Nat × Error))
    (env : RotateEnv) (hst : env.stamp ≠ "") (h : wellKept s) :
    wellKept (Logfile.Write s p fault env).sys := by
  unfold Logfile.Write
  cases hf : s.lf.file with
  | none => exact h
  | some f =>
    simp only []
    have ha := wellKept_append s f p fault hf h
    generalize f.Write s.disk p fault = w at ha ⊢
    obtain ⟨d1, n, err⟩ := w
    cases err with
    | some e => exact ha
    | none =>
      simp only []
      split
      · exact wellKept_rotate _ env hst ha
      · exact ha

/-- `Close` keeps the invariant, whatever the system call answers. -/
theorem wellKept_close (s : Sys) (fault : Option Error) (h : wellKept s) :
    wellKept (Logfile.Close s fault).1 := by
  unfold Logfile.Close
  simp only []
  have hspec := replace_spec s.lf s.disk none fault none
  obtain ⟨hb, hcases⟩ := hspec
  rcases hcases with ⟨_, hsz, hfile, hnone⟩ | ⟨_, hfile, hsz⟩
  · exact wellKept_transfer s.lf _ s.disk s.disk h hb hsz h.1 hfile hnone (fun _ _ => rfl)
  · rw [wellKept_none _ _ hfile, hb]
    exact ⟨h.1, hsz⟩

/-- Whatever `purge` returns, every entry is as it was or was removed, and the
entry under the name of the active file is as it was. -/
theorem purge_lookup (s : Sys) (parses : String → Bool) (rm : String → Option Error)
    (names : List String) (out : Disk × List Event)
    (h : Logfile.purge s parses rm names = some out) :
    ∀ path : String,
      lookupNode out.1 path = lookupNode s.disk path
      ∨ (lookupNode out.1 path = none ∧ sameName s.lf.file path = false) := by
  intro path
  unfold Logfile.purge at h
  split at h
  · simp only [Option.some.injEq] at h
    subst h
    exact Or.inl rfl
  · split at h
    · simp at h
    · simp only [] at h
      split at h
      · simp only [Option.some.injEq] at h
        subst h
        rcases purgeRemove_lookup s.lf.file rm _ s.disk path with h1 | ⟨h1, _, h3⟩
        · exact Or.inl h1
        · exact Or.inr ⟨h1, h3⟩
      · simp only [Option.some.injEq] at h
        subst h
        exact Or.inl rfl

/-- `purge` keeps the invariant. -/
theorem wellKept_purge (s : Sys) (parses : String → Bool) (rm : String → Option Error)
    (names : List String) (out : Disk × List Event)
    (hout : Logfile.purge s parses rm names = some out) (h : wellKept s) :
    wellKept ⟨s.lf, out.1⟩ := by
  have hl := purge_lookup s parses rm names out hout
  apply wellKept_transfer s.lf s.lf s.disk out.1 h rfl rfl
  · apply pointerOnly_of_lookup s.disk _ _ h.1
    intro path
    rcases hl path with h1 | ⟨h1, _⟩
    · exact Or.inl h1
    · exact Or.inr (Or.inr h1)
  · intro f1 hf1
    exact ⟨f1, hf1, rfl, rfl⟩
  · exact fun hn => hn
  · intro f hf
    have hk : wellKept ⟨s.lf, s.disk⟩ := h
    rw [wellKept_some s.lf s.disk f hf] at hk
    rcases hl f.path with h1 | ⟨_, h2⟩
    · exact h1
    · rw [hk.2.1] at h2
      simp [sameName, hf] at h2

theorem wellKept_step (parses : String → Bool) (s s1 : Sys) (op : Op)
    (hst : ∀ st, op.stamp = some st → st ≠ "") (hstep : step parses s op = some s1)
    (h : wellKept s) : wellKept s1 := by
  cases op with
  | write p fault env =>
    simp only [step, Option.some.injEq] at hstep
    subst hstep
    exact wellKept_write s p fault env (hst _ rfl) h
  | rotate env =>
    simp only [step, Option.some.injEq] at hstep
    subst hstep
    exact wellKept_rotate s env (hst _ rfl) h
  | close fault =>
    simp only [step, Option.some.injEq] at hstep
    subst hstep
    exact wellKept_close s fault h
  | purge rm names =>
    simp only [step, Option.map_eq_some'] at hstep
    obtain ⟨out, hout, rfl⟩ := hstep
    exact wellKept_purge s parses rm names out hout h

theorem wellKept_run (parses : String → Bool) (ops : List Op) :
    ∀ (s s1 : Sys), stampsOk ops → run parses s ops = some s1 → wellKept s → wellKept s1 := by
  induction ops with
  | nil =>
    intro s s1 _ hrun h
    simp only [run, Option.some.injEq] at hrun
    exact hrun ▸ h
  | cons op ops ih =>
    intro s s1 hok hrun h
    simp only [run, Option.bind_eq_some] at hrun
    obtain ⟨s2, hstep, hrest⟩ := hrun
    have h2 := wellKept_step parses s s2 op (hok op (List.mem_cons_self op ops)) hstep h
    exact ih s2 s1 (fun o ho => hok o (List.mem_cons_of_mem op ho)) hrest h2

theorem sizeMirrors_of_wellKept (s : Sys) (h : wellKept s) : sizeMirrors s := by
  unfold sizeMirrors
  cases hf : s.lf.file with
  | none =>
    have hk : wellKept ⟨s.lf, s.disk⟩ := h
    rw [wellKept_none s.lf s.disk hf] at hk
    exact hk.2
  | some f =>
    have hk : wellKept ⟨s.lf, s.disk⟩ := h
    rw [wellKept_some s.lf s.disk f hf] at hk
    exact hk.2.2.2

/-- The sink that `open` returns satisfies the invariant. -/
theorem wellKept_open (d0 : Disk) (layout base : String) (seconds maxSize maxCount : Int)
    (env0 : RotateEnv) (lf : Logfile) (hd0 : pointerOnly d0 base) (h0 : env0.stamp ≠ "")
    (hopen : (openWith d0 layout base seconds maxSize maxCount env0).sink
      = some (.rotating lf)) :
    wellKept ⟨lf, (openWith d0 layout base seconds maxSize maxCount env0).disk⟩ := by
  have hblank : wellKept ⟨⟨none, layout, base, 0, seconds, maxSize, maxCount⟩, d0⟩ := by
    rw [wellKept_none _ _ rfl]
    exact ⟨hd0, rfl⟩
  have hrot := wellKept_rotate _ env0 h0 hblank
  unfold openWith at hopen ⊢
  split at hopen
  · split at hopen <;> simp at hopen
  · rename_i hcond
    rw [if_neg hcond]
    simp only [] at hopen ⊢
    split at hopen
    · simp at hopen
    · rename_i herr
      simp only [Option.some.injEq, Sink.rotating.injEq] at hopen
      simp only [herr]
      rw [← hopen]
      exact hrot

/-- C8 (fails as stated): in a directory where the name of the next second
has been planted as a symbolic link to the file of the present second, the
rotation of the next second opens the same file through the link under the
new name and seeds the size from it; the purge pass that follows removes the
file of the present second, whose name is not the active one.  The size is
then 3 and the entry the descriptor is attached to is gone. -/
theorem size_after_planted_link :
    (Open plantedDir "app.log" 0 0 1 (calm ".20160101.000000")).sink
        = some (.rotating plantedLog.lf)
    ∧ (Open plantedDir "app.log" 0 0 1 (calm ".20160101.000000")).disk = plantedLog.disk
    ∧ run stampLike plantedLog
        [.write [1, 2, 3] none (calm ".20160101.000000"),
         .rotate (calm ".20160101.000001"),
         .purge (fun _ => none)
           ["app.log", "app.log.20160101.000000", "app.log.20160101.000001"]]
        = some plantedLater
    ∧ plantedLater.lf.size = 3
    ∧ lookupNode plantedLater.disk "app.log.20160101.000000" = none
    ∧ ¬ sizeMirrors plantedLater := by
  refine ⟨by decide, by decide, by decide, by decide, by decide, ?_⟩
  rintro ⟨data, h, _⟩
  have h2 : lookupNode plantedLater.disk "app.log.20160101.000000" = none := by decide
  rw [h2] at h
  simp at h

/-- C8 (amended): when the directory in which the sink is opened holds no
symbolic link other than, possibly, the pointer at the base name, and every
clock text is non-empty (as with the layouts of `Open` and `OpenDaily`), then
in every state reached from a successful `open` by `Write`, `rotate`, `Close`
and purge passes, whatever the system calls answer and whatever `Glob`
returned, the size is the on-disk length of the active file, which is a
regular file on disk, and it is 0 when there is no active file. -/
theorem size_mirrors_active (parses : String → Bool) (d0 : Disk) (layout base : String)
    (seconds maxSize maxCount : Int) (env0 : RotateEnv) (lf : Logfile) (ops : List Op)
    (s : Sys) (hd0 : pointerOnly d0 base) (h0 : env0.stamp ≠ "") (hops : stampsOk ops)
    (hopen : (openWith d0 layout base seconds maxSize maxCount env0).sink
      = some (.rotating lf))
    (hrun : run parses ⟨lf, (openWith d0 layout base seconds maxSize maxCount env0).disk⟩ ops
      = some s) :
    sizeMirrors s :=
  sizeMirrors_of_wellKept s
    (wellKept_run parses ops _ s hops hrun
      (wellKept_open d0 layout base seconds maxSize maxCount env0 lf hd0 h0 hopen))


/-- Witness of `size_mirrors_active`: the sink opened in an empty directory,
written to and closed. -/
theorem size_mirrors_active_witness :
    sizeMirrors (Logfile.Close appLogWritten none).1 :=
  size_mirrors_active stampLike [] ".20060102.150405" "app.log" 0 1024 0
    (calm ".20160101.000000") appLog.lf
    [.write [1, 2, 3] none (calm ".20160101.000000"), .close none]
    (Logfile.Close appLogWritten none).1
    (by intro k t h; simp [lookupNode] at h) (by decide)
    (by
      intro op hop st hst
      simp only [List.mem_cons, List.mem_singleton, List.not_mem_nil, or_false] at hop
      rcases hop with rfl | rfl
      · simp only [Op.stamp, Option.some.injEq] at hst
        subst hst
        decide
      · simp [Op.stamp] at hst)
    (by decide) (by decide)

/-! ### Retention with a forward clock -/

theorem char_toNat_inj (a b : Char) (h : a.toNat = b.toNat) : a = b := by
  apply Char.eq_of_val_eq
  apply UInt32.eq_of_val_eq
  apply Fin.eq_of_val_eq
  exact h

theorem bytesLe_antisymm : ∀ a b : List Char,
    bytesLe a b = true → bytesLe b a = true → a = b := by
  intro a
  induction a with
  | nil =>
    intro b _ hba
    cases b with
    | nil => rfl
    | cons y ys => simp [bytesLe] at hba
  | cons x xs ih =>
    intro b hab hba
    cases b with
    | nil => simp [bytesLe] at hab
    | cons y ys =>
      unfold bytesLe at hab hba
      by_cases h1 : x.toNat < y.toNat
      · have h2 : ¬ y.toNat < x.toNat := by omega
        simp [h1, h2] at hba
      · by_cases h2 : y.toNat < x.toNat
        · simp [h1, h2] at hab
        · simp only [h1, h2, if_false] at hab hba
          have hxy : x = y := char_toNat_inj x y (by omega)
          rw [hxy, ih ys hab hba]

theorem strLe_antisymm (a b : String) (h1 : strLe a b) (h2 : strLe b a) : a = b :=
  String.ext (bytesLe_antisymm a.data b.data h1 h2)

theorem strLe_refl (a : String) : strLe a a := by
  rcases bytesLe_total a.data a.data with h | h <;> exact h

theorem strLe_trans (a b c : String) (h1 : strLe a b) (h2 : strLe b c) : strLe a c :=
  bytesLe_trans a.data b.data c.data h1 h2

theorem mem_diskNames_iff (d : Disk) (x : String) :
    x ∈ diskNames d ↔ lookupNode d x ≠ none := by
  rw [ne_eq, lookupNode_eq_none_iff, not_not]

theorem suffixParses_candidate (parses : String → Bool) (base stamp : String) :
    suffixParses parses base.length (base ++ stamp) = parses stamp := by
  unfold suffixParses
  congr 1
  apply String.ext
  simp only [String.data_append]
  rw [show base.length = base.data.length from rfl, List.drop_left]

theorem suffixParses_base (parses : String → Bool) (base : String) :
    suffixParses parses base.length base = parses "" := by
  unfold suffixParses
  congr 1
  apply String.ext
  rw [show base.length = base.data.length from rfl, List.drop_length]

theorem candidate_base (base stamp : String) (h : '/' ∉ stamp.data) :
    matchesBase base (base ++ stamp) = true := by
  unfold matchesBase
  rw [Bool.and_eq_true, List.isPrefixOf_iff_prefix, String.data_append, List.drop_left]
  exact ⟨List.prefix_append _ _, by simpa using h⟩

theorem diskNames_setNode (d : Disk) (k : String) (v : Node) :
    diskNames (setNode d k v) = k :: (diskNames d).filter (fun x => decide (x ≠ k)) := by
  unfold setNode eraseNode
  simp only [diskNames, List.map_cons]
  congr 1
  exact diskNames_filter d (fun x => decide (x ≠ k))

theorem nodup_setNode (d : Disk) (k : String) (v : Node) (h : (diskNames d).Nodup) :
    (diskNames (setNode d k v)).Nodup := by
  rw [diskNames_setNode, List.nodup_cons]
  refine ⟨?_, h.filter _⟩
  intro hc
  rw [List.mem_filter] at hc
  simp at hc

theorem nodup_filter_disk (d : Disk) (p : String → Bool) (h : (diskNames d).Nodup) :
    (diskNames (d.filter (fun e => p e.1))).Nodup := by
  rw [diskNames_filter]
  exact h.filter _

theorem stamp_ne_empty (parses : String → Bool) (st : String) (hempty : parses "" = false)
    (hp : parses st = true) : st ≠ "" := by
  intro hc
  rw [hc, hempty] at hp
  simp at hp


theorem mem_retained (parses : String → Bool) (s : Sys) (x : String) :
    x ∈ retained parses s ↔
      lookupNode s.disk x ≠ none ∧ matchesBase s.lf.baseName x = true
        ∧ suffixParses parses s.lf.baseName.length x = true := by
  unfold retained
  rw [List.mem_filter, mem_diskNames_iff, Bool.and_eq_true]

theorem retained_nodup (parses : String → Bool) (s : Sys) (h : (diskNames s.disk).Nodup) :
    (retained parses s).Nodup :=
  h.filter _

/-- The log files depend on the names in the directory and on the base name
only. -/
theorem retained_congr (parses : String → Bool) (s s1 : Sys)
    (hd : diskNames s1.disk = diskNames s.disk) (hb : s1.lf.baseName = s.lf.baseName) :
    retained parses s1 = retained parses s := by
  unfold retained
  rw [hd, hb]

theorem retained_filter_disk (parses : String → Bool) (lf : Logfile) (d : Disk)
    (p : String → Bool) :
    retained parses ⟨lf, d.filter (fun e => p e.1)⟩ = (retained parses ⟨lf, d⟩).filter p := by
  unfold retained
  simp only []
  rw [diskNames_filter, List.filter_filter, List.filter_filter]
  apply List.filter_congr
  intro x _
  rw [Bool.and_comm]

theorem diskNames_appendData (d : Disk) (path : String) (bytes : List Byte) :
    diskNames (appendData d path bytes) = diskNames d := by
  unfold diskNames appendData
  rw [List.map_map]
  apply List.map_congr_left
  intro e _
  simp only [Function.comp]
  by_cases h : e.1 = path <;> simp [h]

theorem diskNames_fileWrite (f : File) (d : Disk) (p : List Byte)
    (fault : Option (Nat × Error)) : diskNames (f.Write d p fault).1 = diskNames d := by
  unfold File.Write
  by_cases hc : f.closed = true
  · simp [hc]
  · simp only [hc, Bool.false_eq_true, if_false]
    exact diskNames_appendData _ _ _

theorem nodup_osRemove (d : Disk) (x : String) (fault : Option Error)
    (h : (diskNames d).Nodup) : (diskNames (osRemove d x fault).1).Nodup := by
  unfold osRemove
  cases lookupNode d x with
  | none => exact h
  | some v =>
    cases fault with
    | some e => exact h
    | none => exact nodup_filter_disk d (fun y => decide (y ≠ x)) h

theorem nodup_osSymlink (d : Disk) (t x : String) (fault : Option Error)
    (h : (diskNames d).Nodup) : (diskNames (osSymlink d t x fault).1).Nodup := by
  unfold osSymlink
  cases lookupNode d x with
  | some v => exact h
  | none =>
    cases fault with
    | some e => exact h
    | none => exact nodup_setNode d x _ h

theorem matchesBase_length (base x : String) (h : matchesBase base x = true) :
    base.length ≤ x.length := by
  unfold matchesBase at h
  rw [Bool.and_eq_true] at h
  exact (List.isPrefixOf_iff_prefix.mp h.1).length_le

theorem nodup_openFile (d : Disk) (name : String)
    (hlink : ∀ t, lookupNode d name ≠ some (.symlink t)) (h : (diskNames d).Nodup) :
    (diskNames (openFile d name none).1).Nodup := by
  rw [openFile_plain d name hlink]
  cases lookupNode d name with
  | none => exact nodup_setNode _ _ _ h
  | some v => exact h

/-- A rotation to a name that is not a symbolic link, with open, close and
stat succeeding, switches to that name, launches one purge pass and adds that
name to the log files and nothing else. -/
theorem rotate_forward (parses : String → Bool) (s : Sys) (env : RotateEnv)
    (hempty : parses "" = false) (hp : parses env.stamp = true)
    (hsep : '/' ∉ env.stamp.data) (hnodup : (diskNames s.disk).Nodup)
    (hold : ∀ f, s.lf.file = some f →
      f.closed = false ∧ f.name ≠ s.lf.baseName ++ env.stamp)
    (hlink : ∀ t, lookupNode s.disk (s.lf.baseName ++ env.stamp) ≠ some (.symlink t))
    (hopen : env.openFault = none) (hclose : s.lf.file ≠ none → env.closeFault = none)
    (hstat : env.statFault = none) :
    (Logfile.rotate s env).err = none
    ∧ (Logfile.rotate s env).events.count .purge = 1
    ∧ (Logfile.rotate s env).sys.lf.file
        = some ⟨s.lf.baseName ++ env.stamp, s.lf.baseName ++ env.stamp, false⟩
    ∧ (Logfile.rotate s env).sys.lf.baseName = s.lf.baseName
    ∧ (Logfile.rotate s env).sys.lf.maxCount = s.lf.maxCount
    ∧ (diskNames (Logfile.rotate s env).sys.disk).Nodup
    ∧ ∀ x, x ∈ retained parses (Logfile.rotate s env).sys
        ↔ x = s.lf.baseName ++ env.stamp ∨ x ∈ retained parses s := by
  have hcand : s.lf.baseName ++ env.stamp ≠ s.lf.baseName :=
    candidate_ne_base _ _ (stamp_ne_empty parses env.stamp hempty hp)
  have hop : openFile s.disk (s.lf.baseName ++ env.stamp) env.openFault
      = ((openFile s.disk (s.lf.baseName ++ env.stamp) none).1,
          some ⟨s.lf.baseName ++ env.stamp, s.lf.baseName ++ env.stamp, false⟩, none) := by
    have h1 := openFile_plain s.disk (s.lf.baseName ++ env.stamp) hlink
    rw [hopen, h1]
  have hrot := rotate_switch_at s env _ _ hold hop hclose hstat
  obtain ⟨hkeep, data, hdata⟩ := openFile_plain_lookup s.disk (s.lf.baseName ++ env.stamp) hlink
  have hlook : ∀ x, x ≠ s.lf.baseName →
      lookupNode (Logfile.rotate s env).sys.disk x
        = lookupNode (openFile s.disk (s.lf.baseName ++ env.stamp) none).1 x := by
    intro x hx
    rw [hrot]
    simp only []
    rw [osSymlink_lookup_ne _ _ _ _ _ hx, osRemove_lookup_ne _ _ _ _ hx]
  refine ⟨by rw [hrot], ?_, by rw [hrot], rotate_baseName s env, by rw [hrot], ?_, ?_⟩
  · rw [hrot]
    simp [List.count_cons, existWarning_count, ErrWarning_count]
  · rw [hrot]
    exact nodup_osSymlink _ _ _ _ (nodup_osRemove _ _ _ (nodup_openFile _ _ hlink hnodup))
  · intro x
    rw [mem_retained, mem_retained, rotate_baseName]
    by_cases hxb : x = s.lf.baseName
    · subst hxb
      rw [suffixParses_base, hempty]
      constructor
      · rintro ⟨_, _, h3⟩
        simp at h3
      · rintro (hx | ⟨_, _, h3⟩)
        · exact absurd hx.symm hcand
        · simp at h3
    · rw [hlook x hxb]
      constructor
      · rintro ⟨h1, h2, h3⟩
        by_cases hxc : x = s.lf.baseName ++ env.stamp
        · exact Or.inl hxc
        · rw [hkeep x hxc] at h1
          exact Or.inr ⟨h1, h2, h3⟩
      · rintro (hx | ⟨h1, h2, h3⟩)
        · subst hx
          refine ⟨?_, candidate_base _ _ hsep, by rw [suffixParses_candidate]; exact hp⟩
          rw [hdata]
          simp
        · refine ⟨?_, h2, h3⟩
          by_cases hxc : x = s.lf.baseName ++ env.stamp
          · rw [hxc, hdata]
            simp
          · rw [hkeep x hxc]
            exact h1

theorem activeName_some (cur : String) (s : Sys) (f : File) (h : s.lf.file = some f) :
    activeName cur s = f.name := by
  unfold activeName
  rw [h]

theorem activeName_none (cur : String) (s : Sys) (h : s.lf.file = none) :
    activeName cur s = cur := by
  unfold activeName
  rw [h]

/-- A rotation of a sink active on `cur`, the clock not stepping back, keeps
the state orderly and counts its file switch. -/
theorem orderly_rotate (parses : String → Bool) (base : String) (k : Nat) (cur : String)
    (j : Nat) (s : Sys) (env : RotateEnv) (hempty : parses "" = false)
    (hfile : s.lf.file = some ⟨cur, cur, false⟩)
    (hok : rotationOk parses base cur env) (h : orderly parses base k cur j s) :
    orderly parses base k (activeName cur (Logfile.rotate s env).sys)
      (j + (Logfile.rotate s env).events.count .purge) (Logfile.rotate s env).sys := by
  obtain ⟨hnodup, _, hcur, hmax, hcount, hbase, hk⟩ := h
  subst hbase
  have hstay : ∀ e : Option Error, Logfile.rotate s env = ⟨s, e, [.rotate]⟩ →
      orderly parses s.lf.baseName k (activeName cur (Logfile.rotate s env).sys)
        (j + (Logfile.rotate s env).events.count .purge) (Logfile.rotate s env).sys := by
    intro e he
    rw [he]
    simp only []
    rw [activeName_some cur s _ hfile]
    have : List.count Event.purge [Event.rotate] = 0 := by decide
    rw [this]
    exact ⟨hnodup, Or.inr hfile, hcur, hmax, hcount, rfl, hk⟩
  by_cases hsame : sameName s.lf.file (s.lf.baseName ++ env.stamp) = true
  · exact hstay none (rotate_noop s env hsame)
  · have hsame : sameName s.lf.file (s.lf.baseName ++ env.stamp) = false := by
      simpa using hsame
    have hne : cur ≠ s.lf.baseName ++ env.stamp := by
      have := sameName_false_ne s.lf _ _ hfile hsame
      exact this
    rcases hok with hok | hok | ⟨hopen, hclose, hstat, hp, hsep, hle, _⟩
    · exact absurd hok.symm hne
    · cases hof : env.openFault with
      | none => exact absurd hof hok
      | some e => exact hstay (some e) (rotate_openFault s env e hsame hof)
    · have hfresh : lookupNode s.disk (s.lf.baseName ++ env.stamp) = none := by
        by_contra hc
        have hmem : s.lf.baseName ++ env.stamp ∈ retained parses s := by
          rw [mem_retained]
          exact ⟨hc, candidate_base _ _ hsep, by rw [suffixParses_candidate]; exact hp⟩
        exact hne (strLe_antisymm _ _ hle (hmax _ hmem))
      have hold : ∀ f, s.lf.file = some f →
          f.closed = false ∧ f.name ≠ s.lf.baseName ++ env.stamp := by
        intro f hf
        rw [hfile] at hf
        simp only [Option.some.injEq] at hf
        subst hf
        exact ⟨rfl, hne⟩
      have hlink : ∀ t, lookupNode s.disk (s.lf.baseName ++ env.stamp) ≠ some (.symlink t) := by
        intro t hc
        rw [hfresh] at hc
        simp at hc
      obtain ⟨_, r0, r1, r2, r3, r4, r5⟩ := rotate_forward parses s env hempty hp hsep hnodup
        hold hlink hopen (fun _ => hclose) hstat
      have hnew : s.lf.baseName ++ env.stamp ∉ retained parses s := by
        intro hc
        rw [mem_retained] at hc
        exact hc.1 hfresh
      have hperm : (retained parses (Logfile.rotate s env).sys).Perm
          ((s.lf.baseName ++ env.stamp) :: retained parses s) := by
        rw [List.perm_ext_iff_of_nodup (retained_nodup parses _ r4)
          (List.nodup_cons.mpr ⟨hnew, retained_nodup parses s hnodup⟩)]
        intro x
        rw [r5 x, List.mem_cons]
      rw [activeName_some cur _ _ r1, r0]
      refine ⟨r4, Or.inr r1, (r5 _).mpr (Or.inl rfl), ?_, ?_, r2, r3.trans hk⟩
      · intro x hx
        rcases (r5 x).mp hx with hx | hx
        · rw [hx]
          exact strLe_refl _
        · exact strLe_trans _ _ _ (hmax x hx) hle
      · rw [hperm.length_eq, List.length_cons]
        omega

/-- Being orderly depends on the names in the directory, the file handle, the
base name and the retention count only. -/
theorem orderly_congr (parses : String → Bool) (base : String) (k : Nat) (cur : String)
    (j : Nat) (s s1 : Sys) (hd : diskNames s1.disk = diskNames s.disk)
    (hf : s1.lf.file = s.lf.file) (hb : s1.lf.baseName = s.lf.baseName)
    (hm : s1.lf.maxCount = s.lf.maxCount) (h : orderly parses base k cur j s) :
    orderly parses base k cur j s1 := by
  obtain ⟨h1, h2, h3, h4, h5, h6, h7⟩ := h
  have hr := retained_congr parses s s1 hd hb
  refine ⟨by rw [hd]; exact h1, by rw [hf]; exact h2, by rw [hr]; exact h3,
    by rw [hr]; exact h4, by rw [hr]; exact h5, by rw [hb]; exact h6, by rw [hm]; exact h7⟩

theorem activeName_orderly (parses : String → Bool) (base : String) (k : Nat) (cur : String)
    (j : Nat) (s : Sys) (h : orderly parses base k cur j s) : activeName cur s = cur := by
  rcases h.2.1 with hf | hf
  · exact activeName_none cur s hf
  · exact activeName_some cur s _ hf

/-- What `Write` does besides appending: nothing, or one `rotate` on the sink
with its size updated. -/
theorem write_cases (s : Sys) (p : List Byte) (fault : Option (Nat × Error))
    (env : RotateEnv) :
    ((Logfile.Write s p fault env).events = []
      ∧ diskNames (Logfile.Write s p fault env).sys.disk = diskNames s.disk
      ∧ (Logfile.Write s p fault env).sys.lf.file = s.lf.file
      ∧ (Logfile.Write s p fault env).sys.lf.baseName = s.lf.baseName
      ∧ (Logfile.Write s p fault env).sys.lf.maxCount = s.lf.maxCount)
    ∨ ∃ s1 : Sys, s.lf.file ≠ none
      ∧ diskNames s1.disk = diskNames s.disk ∧ s1.lf.file = s.lf.file
      ∧ s1.lf.baseName = s.lf.baseName ∧ s1.lf.maxCount = s.lf.maxCount
      ∧ (Logfile.Write s p fault env).sys = (Logfile.rotate s1 env).sys
      ∧ (Logfile.Write s p fault env).events = (Logfile.rotate s1 env).events := by
  cases hf : s.lf.file with
  | none =>
    unfold Logfile.Write
    rw [hf]
    exact Or.inl ⟨rfl, rfl, hf, rfl, rfl⟩
  | some f =>
    unfold Logfile.Write
    rw [hf]
    simp only []
    have hd := diskNames_fileWrite f s.disk p fault
    rcases hw : f.Write s.disk p fault with ⟨d1, n, e⟩
    rw [hw] at hd
    cases e with
    | some e => exact Or.inl ⟨rfl, hd, hf, rfl, rfl⟩
    | none =>
      simp only []
      split
      · exact Or.inr ⟨⟨{ s.lf with size := s.lf.size + n }, d1⟩, by simp, hd,
          hf, rfl, rfl, rfl, rfl⟩
      · exact Or.inl ⟨rfl, hd, hf, rfl, rfl⟩

/-- A `Write` with a forward clock keeps the state orderly and counts its file
switch. -/
theorem orderly_write (parses : String → Bool) (base : String) (k : Nat) (cur : String)
    (j : Nat) (s : Sys) (p : List Byte) (fault : Option (Nat × Error)) (env : RotateEnv)
    (hempty : parses "" = false)
    (hok : Event.rotate ∈ (Logfile.Write s p fault env).events → rotationOk parses base cur env)
    (h : orderly parses base k cur j s) :
    orderly parses base k (activeName cur (Logfile.Write s p fault env).sys)
      (j + (Logfile.Write s p fault env).events.count .purge)
      (Logfile.Write s p fault env).sys := by
  rcases write_cases s p fault env with ⟨he, hd, hf, hb, hm⟩ | ⟨s1, hsome, hd, hf, hb, hm, hs, he⟩
  · have h1 := orderly_congr parses base k cur j s _ hd hf hb hm h
    rw [activeName_orderly parses base k cur j _ h1, he]
    exact h1
  · have h1 := orderly_congr parses base k cur j s s1 hd hf hb hm h
    have hfile : s1.lf.file = some ⟨cur, cur, false⟩ := by
      rcases h1.2.1 with hn | hn
      · rw [hf] at hn
        exact absurd hn hsome
      · exact hn
    have hrot : Event.rotate ∈ (Logfile.Write s p fault env).events := by
      rw [he]
      exact rotate_events_mem s1 env
    rw [hs, he]
    exact orderly_rotate parses base k cur j s1 env hempty hfile (hok hrot) h1

/-- A `Close` that succeeds keeps the state orderly. -/
theorem orderly_close (parses : String → Bool) (base : String) (k : Nat) (cur : String)
    (j : Nat) (s : Sys) (h : orderly parses base k cur j s) :
    orderly parses base k cur j (Logfile.Close s none).1
    ∧ (Logfile.Close s none).1.lf.file = none := by
  have hfile : (Logfile.Close s none).1.lf.file = none := by
    rcases h.2.1 with hn | hn
    · simp [Logfile.Close, Logfile.replace, hn]
    · simp [Logfile.Close, Logfile.replace, hn, File.Close]
  have hb : (Logfile.Close s none).1.lf.baseName = s.lf.baseName := replace_baseName _ _ _ _ _
  have hm : (Logfile.Close s none).1.lf.maxCount = s.lf.maxCount := by
    rcases h.2.1 with hn | hn
    · simp [Logfile.Close, Logfile.replace, hn]
    · simp [Logfile.Close, Logfile.replace, hn, File.Close]
  obtain ⟨h1, _, h3, h4, h5, h6, h7⟩ := h
  have hr := retained_congr parses s (Logfile.Close s none).1 rfl hb
  exact ⟨⟨h1, Or.inl hfile, by rw [hr]; exact h3, by rw [hr]; exact h4, by rw [hr]; exact h5,
    by rw [hb]; exact h6, by rw [hm]; exact h7⟩, hfile⟩

theorem mem_drop_iff_not_take (l : List String) (h : l.Nodup) (e : Nat) (x : String) :
    x ∈ l.drop e ↔ x ∈ l ∧ x ∉ l.take e := by
  have hsplit := List.take_append_drop e l
  have hn : (l.take e ++ l.drop e).Nodup := by rw [hsplit]; exact h
  have hdis := (List.nodup_append.mp hn).2.2
  constructor
  · intro hx
    exact ⟨List.mem_of_mem_drop hx, fun hc => hdis hc hx⟩
  · rintro ⟨hx, hnt⟩
    rw [← hsplit, List.mem_append] at hx
    rcases hx with hx | hx
    · exact absurd hx hnt
    · exact hx

/-- A purge pass on an orderly state, `Glob` reporting the directory and every
removal succeeding: it does not panic, the state stays orderly, the log files
that remain are as many as before or `k` if there were more, and each removed
log file is below each remaining one. -/
theorem purge_forward (parses : String → Bool) (base : String) (k : Nat) (cur : String)
    (j : Nat) (s : Sys) (names : List String) (hk : 0 < k)
    (h : orderly parses base k cur j s) (hg : globReports s.disk base names) :
    ∃ s2, step parses s (.purge (fun _ => none) names) = some s2
      ∧ orderly parses base k cur j s2
      ∧ (retained parses s2).length = min (retained parses s).length k
      ∧ ∀ x ∈ retained parses s, x ∉ retained parses s2 →
          ∀ y ∈ retained parses s2, strLe x y ∧ x ≠ y := by
  obtain ⟨lf, d⟩ := s
  obtain ⟨hnodup, hfile, hcur, hmax, hcount, hbase, hmc⟩ := h
  obtain ⟨hgn, hgm⟩ := hg
  simp only [] at hnodup hfile hbase hmc hgm
  subst hbase
  have hlen : ∀ x ∈ names, lf.baseName.length ≤ x.length :=
    fun x hx => matchesBase_length _ _ ((hgm x).mp hx).2
  have hscan := purgeScan_eq_filter parses lf.baseName.length names hlen
  generalize hkept : names.filter (suffixParses parses lf.baseName.length) = kept at hscan
  have hkn : kept.Nodup := by
    rw [← hkept]
    exact hgn.filter _
  have hkm : ∀ x, x ∈ kept ↔ x ∈ retained parses ⟨lf, d⟩ := by
    intro x
    rw [← hkept, List.mem_filter, hgm x, mem_retained, mem_diskNames_iff, and_assoc]
  have hrn := retained_nodup parses ⟨lf, d⟩ hnodup
  have hkl : kept.length = (retained parses ⟨lf, d⟩).length :=
    ((List.perm_ext_iff_of_nodup hkn hrn).mpr hkm).length_eq
  have hsn : (sortStrings kept).Nodup := sortStrings_nodup kept hkn
  have hpurge : Logfile.purge ⟨lf, d⟩ parses (fun _ => none) names
      = if (k : Int) < (kept.length : Int) then
          some (purgeRemove lf.file (fun _ => none) d
            ((sortStrings kept).take (kept.length - k)))
        else some (d, []) := by
    unfold Logfile.purge
    simp only []
    rw [if_neg (by rw [hmc]; omega), hscan]
    simp only [hmc]
    by_cases hlt : (k : Int) < (kept.length : Int)
    · rw [if_pos hlt, if_pos (by omega)]
      congr 3
      omega
    · rw [if_neg hlt, if_neg (by omega)]
  by_cases hlt : k < kept.length
  · have hlt2 : (k : Int) < (kept.length : Int) := by omega
    rw [if_pos hlt2] at hpurge
    generalize he : kept.length - k = e at hpurge
    have hdrop_ne : ∃ y, y ∈ (sortStrings kept).drop e := by
      have : 0 < ((sortStrings kept).drop e).length := by
        rw [List.length_drop, (sortStrings_perm _).length_eq]
        omega
      exact List.exists_mem_of_length_pos this
    have hcur_drop : cur ∈ (sortStrings kept).drop e := by
      have hin : cur ∈ sortStrings kept := (mem_sortStrings _ _).mpr ((hkm cur).mpr hcur)
      rw [← List.take_append_drop e (sortStrings kept), List.mem_append] at hin
      rcases hin with hin | hin
      · obtain ⟨y, hy⟩ := hdrop_ne
        have h1 := sortStrings_take_le_drop _ hkn e cur hin y hy
        have h2 := hmax y ((hkm y).mp ((mem_sortStrings _ _).mp (List.mem_of_mem_drop hy)))
        exact absurd (strLe_antisymm _ _ h1.1 h2) h1.2
      · exact hin
    have hact : ∀ x ∈ (sortStrings kept).take e, sameName lf.file x = false := by
      intro x hx
      have h1 := sortStrings_take_le_drop _ hkn e x hx cur hcur_drop
      rcases hfile with hf | hf
      · rw [hf]
        rfl
      · rw [hf]
        simp only [sameName, decide_eq_false_iff_not]
        exact fun hc => h1.2 hc.symm
    have hdisk := purgeRemove_all lf.file _ d hact
    have hret : retained parses ⟨lf, (purgeRemove lf.file (fun _ => none) d
        ((sortStrings kept).take e)).1⟩
        = (retained parses ⟨lf, d⟩).filter
            (fun x => decide (x ∉ (sortStrings kept).take e)) := by
      rw [hdisk]
      exact retained_filter_disk parses lf d (fun x => decide (x ∉ (sortStrings kept).take e))
    have hmem : ∀ x, x ∈ retained parses ⟨lf, (purgeRemove lf.file (fun _ => none) d
        ((sortStrings kept).take e)).1⟩ ↔ x ∈ (sortStrings kept).drop e := by
      intro x
      rw [hret, List.mem_filter, mem_drop_iff_not_take _ hsn, mem_sortStrings, hkm,
        decide_eq_true_eq]
    have hnd2 : (diskNames (purgeRemove lf.file (fun _ => none) d
        ((sortStrings kept).take e)).1).Nodup := by
      rw [hdisk]
      exact nodup_filter_disk d (fun x => decide (x ∉ (sortStrings kept).take e)) hnodup
    have hlen2 : (retained parses ⟨lf, (purgeRemove lf.file (fun _ => none) d
        ((sortStrings kept).take e)).1⟩).length = k := by
      have hp : (retained parses ⟨lf, (purgeRemove lf.file (fun _ => none) d
          ((sortStrings kept).take e)).1⟩).Perm ((sortStrings kept).drop e) :=
        (List.perm_ext_iff_of_nodup (retained_nodup parses _ hnd2)
          (hsn.sublist (List.drop_sublist e _))).mpr hmem
      rw [hp.length_eq, List.length_drop, (sortStrings_perm _).length_eq]
      omega
    refine ⟨⟨lf, (purgeRemove lf.file (fun _ => none) d ((sortStrings kept).take e)).1⟩,
      ?_, ?_, ?_, ?_⟩
    · simp only [step, hpurge, Option.map_some']
    · refine ⟨hnd2, hfile, (hmem cur).mpr hcur_drop, ?_, ?_, rfl, hmc⟩
      · intro x hx
        exact hmax x ((hkm x).mp ((mem_sortStrings _ _).mp
          (List.mem_of_mem_drop ((hmem x).mp hx))))
      · rw [hlen2]
        exact Nat.min_le_right j k
    · rw [hlen2, ← hkl]
      omega
    · intro x hx hx2 y hy
      have hxs : x ∈ sortStrings kept := (mem_sortStrings _ _).mpr ((hkm x).mpr hx)
      rw [← List.take_append_drop e (sortStrings kept), List.mem_append] at hxs
      rcases hxs with hxs | hxs
      · exact sortStrings_take_le_drop _ hkn e x hxs y ((hmem y).mp hy)
      · exact absurd ((hmem x).mpr hxs) hx2
  · have hlt2 : ¬ (k : Int) < (kept.length : Int) := by omega
    rw [if_neg hlt2] at hpurge
    refine ⟨⟨lf, d⟩, ?_, ⟨hnodup, hfile, hcur, hmax, hcount, rfl, hmc⟩, ?_, ?_⟩
    · simp only [step, hpurge, Option.map_some']
    · rw [← hkl]
      omega
    · intro x hx hx2
      exact absurd hx hx2

/-- A run with a forward clock does not panic, keeps the state orderly and
counts its file switches. -/
theorem run_orderly (parses : String → Bool) (base : String) (k : Nat) (hk : 0 < k)
    (hempty : parses "" = false) (ops : List Op) :
    ∀ (cur : String) (j : Nat) (s : Sys), forward parses base cur s ops →
      orderly parses base k cur j s →
      ∃ cur1 s1, run parses s ops = some s1
        ∧ orderly parses base k cur1 (j + rotationsIn parses s ops) s1 := by
  induction ops with
  | nil =>
    intro cur j s _ h
    exact ⟨cur, s, rfl, h⟩
  | cons op ops ih =>
    intro cur j s hfw h
    obtain ⟨hop, hrest⟩ := hfw
    cases op with
    | write p fault env =>
      have h2 := orderly_write parses base k cur j s p fault env hempty hop h
      obtain ⟨cur1, s1, hrun, hord⟩ := ih _ _ _ hrest h2
      refine ⟨cur1, s1, hrun, ?_⟩
      rw [show j + rotationsIn parses s (Op.write p fault env :: ops)
        = j + (Logfile.Write s p fault env).events.count .purge
          + rotationsIn parses (Logfile.Write s p fault env).sys ops from (Nat.add_assoc _ _ _).symm]
      exact hord
    | rotate env =>
      obtain ⟨hsome, hok⟩ := hop
      have hfile : s.lf.file = some ⟨cur, cur, false⟩ := by
        rcases h.2.1 with hn | hn
        · exact absurd hn hsome
        · exact hn
      have h2 := orderly_rotate parses base k cur j s env hempty hfile hok h
      obtain ⟨cur1, s1, hrun, hord⟩ := ih _ _ _ hrest h2
      refine ⟨cur1, s1, hrun, ?_⟩
      rw [show j + rotationsIn parses s (Op.rotate env :: ops)
        = j + (Logfile.rotate s env).events.count .purge
          + rotationsIn parses (Logfile.rotate s env).sys ops from (Nat.add_assoc _ _ _).symm]
      exact hord
    | close fault =>
      have hfault : fault = none := hop
      subst hfault
      obtain ⟨h2, hnone⟩ := orderly_close parses base k cur j s h
      have hact : activeName cur (stepOr parses s (Op.close none)) = cur :=
        activeName_none cur _ hnone
      rw [hact] at hrest
      obtain ⟨cur1, s1, hrun, hord⟩ := ih _ _ _ hrest h2
      refine ⟨cur1, s1, hrun, ?_⟩
      rw [show j + rotationsIn parses s (Op.close none :: ops)
        = j + rotationsIn parses (Logfile.Close s none).1 ops from by
          show j + (0 + _) = _
          rw [Nat.zero_add]
          rfl]
      exact hord
    | purge rm names =>
      obtain ⟨hrm, hg⟩ := hop
      have hrm2 : rm = fun _ => none := funext hrm
      subst hrm2
      obtain ⟨s2, hstep, hord2, _, _⟩ := purge_forward parses base k cur j s names hk h hg
      have hso : stepOr parses s (Op.purge (fun _ => none) names) = s2 := by
        unfold stepOr
        rw [hstep]
        rfl
      rw [hso, activeName_orderly parses base k cur j s2 hord2] at hrest
      obtain ⟨cur1, s1, hrun, hord⟩ := ih cur j s2 hrest hord2
      refine ⟨cur1, s1, ?_, ?_⟩
      · simp only [run, hstep, Option.some_bind]
        exact hrun
      · rw [show j + rotationsIn parses s (Op.purge (fun _ => none) names :: ops)
          = j + rotationsIn parses s2 ops from by
            show j + (0 + rotationsIn parses (stepOr parses s _) ops) = _
            rw [Nat.zero_add, hso]]
        exact hord

/-- A first rotation that returns no error had its open and its stat
succeed. -/
theorem rotate_first_ok (lf : Logfile) (d : Disk) (env : RotateEnv) (hfile : lf.file = none)
    (hlink : ∀ t, lookupNode d (lf.baseName ++ env.stamp) ≠ some (.symlink t))
    (herr : (Logfile.rotate ⟨lf, d⟩ env).err = none) :
    env.openFault = none ∧ env.statFault = none := by
  have hsame : sameName (⟨lf, d⟩ : Sys).lf.file ((⟨lf, d⟩ : Sys).lf.baseName ++ env.stamp)
      = false := by
    show sameName lf.file _ = false
    rw [hfile]
    rfl
  cases hof : env.openFault with
  | some e =>
    rw [rotate_openFault ⟨lf, d⟩ env e hsame hof] at herr
    simp at herr
  | none =>
    refine ⟨rfl, ?_⟩
    cases hsf : env.statFault with
    | none => rfl
    | some e =>
      have hop := openFile_plain d (lf.baseName ++ env.stamp) hlink
      unfold Logfile.rotate at herr
      simp only [] at herr
      rw [hfile] at herr
      simp [sameName, hof, hop, Logfile.replace, hfile, File.Stat, hsf] at herr

/-- The sink that `open` returns in a directory whose log files are none
above the first candidate name, that name not being a symbolic link, is
orderly after one file switch. -/
theorem open_orderly (parses : String → Bool) (d0 : Disk) (layout base : String)
    (seconds maxSize : Int) (k : Nat) (env0 : RotateEnv) (lf : Logfile) (hk : 0 < k)
    (hempty : parses "" = false) (hd0 : (diskNames d0).Nodup)
    (hp0 : parses env0.stamp = true) (hsep0 : '/' ∉ env0.stamp.data)
    (hold : ∀ x ∈ diskNames d0, matchesBase base x = true →
      suffixParses parses base.length x = true → strLe x (base ++ env0.stamp))
    (hlink0 : ∀ t, lookupNode d0 (base ++ env0.stamp) ≠ some (.symlink t))
    (hopen : (openWith d0 layout base seconds maxSize k env0).sink = some (.rotating lf)) :
    orderly parses base k (base ++ env0.stamp) 1
      ⟨lf, (openWith d0 layout base seconds maxSize k env0).disk⟩ := by
  have hw : openWith d0 layout base seconds maxSize k env0
      = match (Logfile.rotate ⟨⟨none, layout, base, 0, seconds, maxSize, k⟩, d0⟩ env0).err with
        | some e =>
          ⟨(Logfile.Close (Logfile.rotate ⟨⟨none, layout, base, 0, seconds, maxSize, k⟩, d0⟩
              env0).sys none).1.disk, none, some e,
            (Logfile.rotate ⟨⟨none, layout, base, 0, seconds, maxSize, k⟩, d0⟩ env0).events
              ++ ErrWarning (Logfile.Close (Logfile.rotate
                ⟨⟨none, layout, base, 0, seconds, maxSize, k⟩, d0⟩ env0).sys none).2⟩
        | none =>
          ⟨(Logfile.rotate ⟨⟨none, layout, base, 0, seconds, maxSize, k⟩, d0⟩ env0).sys.disk,
            some (.rotating
              (Logfile.rotate ⟨⟨none, layout, base, 0, seconds, maxSize, k⟩, d0⟩ env0).sys.lf),
            none,
            (Logfile.rotate ⟨⟨none, layout, base, 0, seconds, maxSize, k⟩, d0⟩ env0).events
              ++ [.cycle]⟩ := by
    unfold openWith
    rw [if_neg (by intro hc; have := hc.2.2; omega)]
  cases herr : (Logfile.rotate ⟨⟨none, layout, base, 0, seconds, maxSize, k⟩, d0⟩ env0).err with
  | some e =>
    rw [hw, herr] at hopen
    simp at hopen
  | none =>
    rw [hw, herr] at hopen
    simp only [Option.some.injEq, Sink.rotating.injEq] at hopen
    obtain ⟨hof, hsf⟩ := rotate_first_ok ⟨none, layout, base, 0, seconds, maxSize, k⟩ d0 env0
      rfl hlink0 herr
    obtain ⟨_, _, r1, r2, r3, r4, r5⟩ := rotate_forward parses
      ⟨⟨none, layout, base, 0, seconds, maxSize, k⟩, d0⟩ env0 hempty hp0 hsep0 hd0
      (by intro f hf; simp at hf) hlink0 hof (by intro hc; exact absurd rfl hc) hsf
    have hdisk : (openWith d0 layout base seconds maxSize k env0).disk
        = (Logfile.rotate ⟨⟨none, layout, base, 0, seconds, maxSize, k⟩, d0⟩ env0).sys.disk := by
      rw [hw, herr]
    rw [hdisk, ← hopen]
    refine ⟨r4, Or.inr r1, (r5 _).mpr (Or.inl rfl), ?_, ?_, r2, r3⟩
    · intro x hx
      rcases (r5 x).mp hx with hx | hx
      · rw [hx]
        exact strLe_refl _
      · rw [mem_retained] at hx
        exact hold x ((mem_diskNames_iff d0 x).mpr hx.1) hx.2.1 hx.2.2
    · have : 0 < (retained parses (Logfile.rotate
          ⟨⟨none, layout, base, 0, seconds, maxSize, k⟩, d0⟩ env0).sys).length :=
        List.length_pos_of_mem ((r5 _).mpr (Or.inl rfl))
      exact le_trans (Nat.min_le_left 1 k) this

/-- C4 (amended): a sink keeping `k > 0` files is opened in a directory in
which no log file of its base name is above the first candidate name and that
name is not a symbolic link; then `Write`, scheduled rotations, `Close` and
purge passes follow in any order and number, with a forward clock: a rotation
finds its candidate name equal to the active name, or its open refused, or the
candidate strictly above the active name with open, close and stat succeeding;
a `Close` succeeds; in a purge pass every removal succeeds and `Glob` returned
each directory entry that extends the base name, once, spelled as the base name
is.  Clock texts parse and hold no separator, the empty text does not parse.
After more than `k` file switches, the opening one included, the run does not
panic, and once a purge pass has then completed exactly `k` log files remain,
the newest of them is the file the sink last switched to, which is the active
file unless the sink was closed, and every log file that this pass removed is
strictly below every remaining one. -/
theorem purge_keeps_newest (parses : String → Bool) (d0 : Disk) (layout base : String)
    (seconds maxSize : Int) (k : Nat) (env0 : RotateEnv) (lf : Logfile) (ops : List Op)
    (hk : 0 < k) (hempty : parses "" = false) (hd0 : (diskNames d0).Nodup)
    (hp0 : parses env0.stamp = true) (hsep0 : '/' ∉ env0.stamp.data)
    (hold : ∀ x ∈ diskNames d0, matchesBase base x = true →
      suffixParses parses base.length x = true → strLe x (base ++ env0.stamp))
    (hlink0 : ∀ t, lookupNode d0 (base ++ env0.stamp) ≠ some (.symlink t))
    (hopen : (openWith d0 layout base seconds maxSize k env0).sink = some (.rotating lf))
    (hfw : forward parses base (base ++ env0.stamp)
      ⟨lf, (openWith d0 layout base seconds maxSize k env0).disk⟩ ops)
    (hn : k < 1 + rotationsIn parses
      ⟨lf, (openWith d0 layout base seconds maxSize k env0).disk⟩ ops) :
    ∃ s1, run parses ⟨lf, (openWith d0 layout base seconds maxSize k env0).disk⟩ ops = some s1
      ∧ ∀ names, globReports s1.disk base names →
        ∃ s2, step parses s1 (.purge (fun _ => none) names) = some s2
          ∧ (retained parses s2).length = k
          ∧ (∃ cur, cur ∈ retained parses s2
              ∧ (∀ y ∈ retained parses s2, strLe y cur)
              ∧ (s2.lf.file = none ∨ s2.lf.file = some ⟨cur, cur, false⟩))
          ∧ ∀ x ∈ retained parses s1, x ∉ retained parses s2 →
              ∀ y ∈ retained parses s2, strLe x y ∧ x ≠ y := by
  have hord0 := open_orderly parses d0 layout base seconds maxSize k env0 lf hk hempty hd0
    hp0 hsep0 hold hlink0 hopen
  obtain ⟨cur1, s1, hrun, hord1⟩ := run_orderly parses base k hk hempty ops _ 1 _ hfw hord0
  refine ⟨s1, hrun, ?_⟩
  intro names hg
  obtain ⟨s2, hstep, hord2, hlen, hrem⟩ := purge_forward parses base k cur1 _ s1 names hk
    hord1 hg
  refine ⟨s2, hstep, ?_, ⟨cur1, hord2.2.2.1, hord2.2.2.2.1, hord2.2.1⟩, hrem⟩
  have := hord1.2.2.2.2.1
  rw [hlen]
  omega

/-- What `globReports` says, with the quantifiers bounded by the two lists. -/
theorem globReports_iff (d : Disk) (base : String) (names : List String) :
    globReports d base names ↔
      names.Nodup ∧ (∀ x ∈ names, x ∈ diskNames d ∧ matchesBase base x = true)
        ∧ ∀ x ∈ diskNames d, matchesBase base x = true → x ∈ names := by
  unfold globReports
  constructor
  · rintro ⟨h1, h2⟩
    exact ⟨h1, fun x hx => (h2 x).mp hx, fun x hx hm => (h2 x).mpr ⟨hx, hm⟩⟩
  · rintro ⟨h1, h2, h3⟩
    exact ⟨h1, fun x => ⟨h2 x, fun h => h3 x h.1 h.2⟩⟩

/-- C4 (fails as stated): a sink keeping one file (`maxCount = 1`).
(1) It is opened at 02:59:59 local time in the night daylight saving time
ends; the rotation of the next hour mark reads 02:00:00, a name below the
active one.  The purge pass it launches sorts the new, active file first,
skips it, and removes nothing: two log files remain.
(2) Opened under the base name `./app.log`, `Glob` returns the names without
the leading `./`, and the purge pass panics slicing the first of them.
(3) With a forward clock (03:00:00) and the removal failing, two log files
remain.
(4) When closing the previous file or the stat of the new one fails in
`rotate`, the new file stays on disk, no purge pass is launched, and a later
purge pass skips the name of the stale handle: two log files remain.
(5) The same after a `Close` that failed, at the next scheduled rotation.
(6) Opened in a directory that holds a log file with a later name, or in which
the first candidate name is a symbolic link to a later name, the first purge
pass sorts the active name first and skips it: two log files remain. -/
theorem purge_after_clock_step_back :
    ((Open [] "app.log" 3600 0 1 (calm ".20161030.025959")).sink
        = some (.rotating hourLog.lf)
      ∧ (Open [] "app.log" 3600 0 1 (calm ".20161030.025959")).disk = hourLog.disk
      ∧ run stampLike hourLog
          [.purge (fun _ => none) ["app.log", "app.log.20161030.025959"],
           .rotate (calm ".20161030.020000"),
           .purge (fun _ => none)
             ["app.log", "app.log.20161030.020000", "app.log.20161030.025959"]]
          = some hourLogLater
      ∧ globReports hourLogLater.disk "app.log"
          ["app.log", "app.log.20161030.020000", "app.log.20161030.025959"]
      ∧ hourLogLater.lf.maxCount = 1
      ∧ retained stampLike hourLogLater
          = ["app.log.20161030.020000", "app.log.20161030.025959"])
    ∧ ((Open [] "./app.log" 3600 0 1 (calm ".20161030.025959")).sink
        = some (.rotating dotLog.lf)
      ∧ (Open [] "./app.log" 3600 0 1 (calm ".20161030.025959")).disk = dotLog.disk
      ∧ step stampLike dotLog
          (.purge (fun _ => none) ["app.log", "app.log.20161030.025959"]) = none)
    ∧ (run stampLike hourLog
          [.rotate (calm ".20161030.030000"),
           .purge (fun _ => some (.sys 13))
             ["app.log", "app.log.20161030.025959", "app.log.20161030.030000"]]
          = some hourLogNext
      ∧ retained stampLike hourLogNext
          = ["app.log.20161030.030000", "app.log.20161030.025959"])
    ∧ (Logfile.rotate hourLog ⟨".20161030.030000", none, some (.sys 5), none, none, none⟩
          = ⟨hourLogStuck, some (.sys 5), [.rotate]⟩
      ∧ Logfile.rotate hourLog ⟨".20161030.030000", none, none, some (.sys 5), none, none⟩
          = ⟨hourLogStuck, some (.sys 5), [.rotate]⟩
      ∧ step stampLike hourLogStuck
          (.purge (fun _ => none)
            ["app.log", "app.log.20161030.025959", "app.log.20161030.030000"])
          = some hourLogStuck
      ∧ retained stampLike hourLogStuck
          = ["app.log.20161030.030000", "app.log.20161030.025959"])
    ∧ run stampLike hourLog [.close (some (.sys 5)), .rotate (calm ".20161030.030000")]
        = some hourLogStuck
    ∧ ((Open lateDir "app.log" 3600 0 1 (calm ".20161030.025959")).sink
        = some (.rotating lateLog.lf)
      ∧ (Open lateDir "app.log" 3600 0 1 (calm ".20161030.025959")).disk = lateLog.disk
      ∧ step stampLike lateLog
          (.purge (fun _ => none)
            ["app.log", "app.log.20161030.025959", "app.log.20161030.030000"])
          = some lateLog
      ∧ retained stampLike lateLog
          = ["app.log.20161030.025959", "app.log.20161030.030000"]
      ∧ (Open farDir "app.log" 3600 0 1 (calm ".20161030.025959")).sink
        = some (.rotating farLog.lf)
      ∧ (Open farDir "app.log" 3600 0 1 (calm ".20161030.025959")).disk = farLog.disk
      ∧ step stampLike farLog
          (.purge (fun _ => none)
            ["app.log", "app.log.20161030.025959", "app.log.20991231.000000"])
          = some farLog
      ∧ retained stampLike farLog
          = ["app.log.20991231.000000", "app.log.20161030.025959"]) := by
  refine ⟨⟨by decide, by decide, by decide, (globReports_iff _ _ _).mpr (by decide), by decide,
    by decide⟩, ⟨by decide, by decide, by decide⟩, ⟨by decide, by decide⟩,
    ⟨by decide, by decide, by decide, by decide⟩, by decide,
    ⟨by decide, by decide, by decide, by decide, by decide, by decide, by decide, by decide⟩⟩

/-- Witness of `purge_keeps_newest`: a sink keeping two files, opened in a
directory that holds a log file of the day before, written to, rotated in each
of the next two seconds with a purge pass in between, and closed. -/
theorem purge_keeps_newest_witness :
    (openWith agedDir ".20060102.150405" "app.log" 1 0 (2 : Nat)
        (calm ".20160101.000000")).sink = some (.rotating agedLog.lf)
    ∧ forward stampLike "app.log" ("app.log" ++ (calm ".20160101.000000").stamp)
        ⟨agedLog.lf, (openWith agedDir ".20060102.150405" "app.log" 1 0 (2 : Nat)
          (calm ".20160101.000000")).disk⟩ agedOps
    ∧ ∃ s1, run stampLike
        ⟨agedLog.lf, (openWith agedDir ".20060102.150405" "app.log" 1 0 (2 : Nat)
          (calm ".20160101.000000")).disk⟩ agedOps = some s1
      ∧ ∀ names, globReports s1.disk "app.log" names →
        ∃ s2, step stampLike s1 (.purge (fun _ => none) names) = some s2
          ∧ (retained stampLike s2).length = 2
          ∧ (∃ cur, cur ∈ retained stampLike s2
              ∧ (∀ y ∈ retained stampLike s2, strLe y cur)
              ∧ (s2.lf.file = none ∨ s2.lf.file = some ⟨cur, cur, false⟩))
          ∧ ∀ x ∈ retained stampLike s1, x ∉ retained stampLike s2 →
              ∀ y ∈ retained stampLike s2, strLe x y ∧ x ≠ y :=
  have hfw : forward stampLike "app.log" ("app.log" ++ (calm ".20160101.000000").stamp)
      ⟨agedLog.lf, (openWith agedDir ".20060102.150405" "app.log" 1 0 (2 : Nat)
        (calm ".20160101.000000")).disk⟩ agedOps :=
    ⟨fun h => absurd h (by decide),
      ⟨by decide, Or.inr (Or.inr ⟨rfl, rfl, rfl, by decide, by decide, by decide, by decide⟩)⟩,
      ⟨fun _ => rfl, (globReports_iff _ _ _).mpr (by decide)⟩,
      ⟨by decide, Or.inr (Or.inr ⟨rfl, rfl, rfl, by decide, by decide, by decide, by decide⟩)⟩,
      rfl, trivial⟩
  ⟨by decide, hfw,
    purge_keeps_newest stampLike agedDir ".20060102.150405" "app.log" 1 0 2
      (calm ".20160101.000000") agedLog.lf agedOps (by decide) (by decide) (by decide)
      (by decide) (by decide) (by decide)
      (fun t h => absurd
        (h.symm.trans (show lookupNode agedDir ("app.log" ++ (calm ".20160101.000000").stamp)
          = none from by decide)) (by simp))
      (by decide) hfw (by decide)⟩

end Log
